import Mathlib

/-!
Shallow embedding of `src/moonlink/src/storage/iceberg/puffin_writer_proxy.rs`:
the manifest / deletion-vector rewrite engine of the moonlink repository.

Modelling conventions:
* Rust `u64` values are `Nat` (with explicit bounds / wrapping where the code
  casts), `i64`/`i32` values are `Int`.
* `HashMap` / `HashSet` inputs are association lists / lists; iteration order
  of the model is the list order (the Rust hash containers iterate in an
  unspecified order, and no claim depends on a particular order).
* fallible operations (Rust `?`, `unwrap`, `assert!` aborts) return
  `Except RewriteError`; each abort site of the source is mapped to the error
  kind the specification assigns to it.
* storage effects are threaded through an explicit `Store` (the content of the
  current snapshot's manifest list plus a log of written manifest objects),
  with a `faults` oracle deciding which physical write operations fail.
-/

set_option maxHeartbeats 1000000

deriving instance DecidableEq for Except

namespace Moonlink

/-- File format of a manifest entry (external `iceberg::spec::DataFileFormat`). -/
inductive DataFileFormat
  | Avro
  | Orc
  | Parquet
  | Puffin
  deriving DecidableEq, Inhabited

/-- Content type of a manifest file (external `iceberg::spec::ManifestContentType`). -/
inductive ManifestContentType
  | Data
  | Deletes
  deriving DecidableEq, Inhabited

/-- Content type stored by a data file (external `iceberg::spec::DataContentType`). -/
inductive DataContentType
  | Data
  | PositionDeletes
  | EqualityDeletes
  deriving DecidableEq, Inhabited

/-- Puffin blob compression codec (external `iceberg::puffin::CompressionCodec`). -/
inductive CompressionCodec
  | None
  | Lz4
  | Zstd
  deriving DecidableEq, Inhabited

/-- Mirror of the puffin footer flag enum (`PuffinFlagProxy` in the source). -/
inductive PuffinFlagProxy
  | FooterPayloadCompressed
  deriving DecidableEq, Inhabited

/-- Opaque single value (external `iceberg::spec::Datum`); only carried around,
never inspected by the code under verification. -/
structure Datum where
  raw : String
  deriving DecidableEq, Inhabited

/-- Partition data tuple (external `iceberg::spec::Struct`). -/
structure Struct where
  fields : List (Option Datum)
  deriving DecidableEq, Inhabited

/-- Empty partition tuple, `Struct::empty()`. -/
def Struct.empty : Struct := ⟨[]⟩

/-- Mirror of `PuffinBlobMetadataProxy` (source lines 38-47): one accumulated
blob record of a puffin writer. `type` is the Rust `r#type` field. -/
structure PuffinBlobMetadataProxy where
  type : String
  fields : List Int
  snapshot_id : Int
  sequence_number : Int
  offset : Nat
  length : Nat
  compression_codec : CompressionCodec
  properties : List (String × String)
  deriving DecidableEq, Inhabited

/-- Mirror of `DataFileProxy` (source lines 62-194), the structured description
written into a manifest entry.  Maps are association lists keyed by column id. -/
structure DataFileProxy where
  content : DataContentType
  file_path : String
  file_format : DataFileFormat
  partition : Struct
  record_count : Nat
  file_size_in_bytes : Nat
  column_sizes : List (Int × Nat)
  value_counts : List (Int × Nat)
  null_value_counts : List (Int × Nat)
  nan_value_counts : List (Int × Nat)
  lower_bounds : List (Int × Datum)
  upper_bounds : List (Int × Datum)
  key_metadata : Option (List Nat)
  split_offsets : List Int
  equality_ids : List Int
  sort_order_id : Option Int
  first_row_id : Option Int
  partition_spec_id : Int
  referenced_data_file : Option String
  content_offset : Option Int
  content_size_in_bytes : Option Int
  deriving DecidableEq, Inhabited

/-- The source transmutes `DataFileProxy` into the external `iceberg::spec::DataFile`
relying on identical memory layout; in the model the two coincide. -/
abbrev DataFile := DataFileProxy

/-- One row of a manifest file (the parts of the external `ManifestEntry` the
source reads: the file record and the optional sequence number). -/
structure ManifestEntry where
  data_file : DataFile
  sequence_number : Option Int
  deriving DecidableEq, Inhabited

/-- A manifest file together with the content kind of its metadata
(`manifest.into_parts()` in the source).  The model identifies a manifest-file
reference in a manifest list with its loaded content. -/
structure Manifest where
  content : ManifestContentType
  entries : List ManifestEntry
  deriving DecidableEq, Inhabited

/-- Error kinds of the rewrite pass.  Abort sites of the source (`?`
propagation, `unwrap` and `assert!` panics) are mapped to the error taxonomy
of the specification (section 7). -/
inductive RewriteError
  | noCurrentSnapshot
  | emptyManifest
  | inconsistentManifest
  | missingSequenceNumber
  | missingReferencedDataFile
  | duplicateDeletionVector (path : String)
  | malformedBlob
  | unexpectedBlobType
  | storageIoError
  deriving DecidableEq, Inhabited

/-- Modelled from the spec: blob type tag of mooncake hash-index blobs
(`MOONCAKE_HASH_INDEX_V1`, declared in `storage/iceberg/index.rs` which is not
among the provided sources; only its distinctness from the deletion-vector tag
matters). -/
def MOONCAKE_HASH_INDEX_V1 : String := "mooncake-hash-index-v1"

/-- Modelled from the spec: property key carrying the hash-index cardinality
(`MOONCAKE_HASH_INDEX_V1_CARDINALITY`, declared in `storage/iceberg/index.rs`). -/
def MOONCAKE_HASH_INDEX_V1_CARDINALITY : String := "cardinality"

/-- Blob type tag of deletion-vector blobs (external
`iceberg::puffin::DELETION_VECTOR_V1`, per the puffin spec). -/
def DELETION_VECTOR_V1 : String := "deletion-vector-v1"

/-- Modelled from the spec: property key carrying the referenced data file of a
deletion-vector blob (`DELETION_VECTOR_REFERENCED_DATA_FILE`, declared in
`storage/iceberg/deletion_vector.rs`). -/
def DELETION_VECTOR_REFERENCED_DATA_FILE : String := "referenced-data-file"

/-- Modelled from the spec: property key carrying the cardinality of a
deletion-vector blob (`DELETION_VECTOR_CADINALITY`, declared in
`storage/iceberg/deletion_vector.rs`). -/
def DELETION_VECTOR_CADINALITY : String := "cardinality"

/-- Lookup in an association list, `HashMap::get` of the source. -/
def lookupKey {β : Type} (k : String) : List (String × β) → Option β
  | [] => none
  | (k2, v) :: rest => if k2 = k then some v else lookupKey k rest

/-- Removal from an association list, `HashMap::remove` of the source (removes
every binding of the key; the maps of the source never hold a key twice). -/
def removeKey {β : Type} (k : String) : List (String × β) → List (String × β)
  | [] => []
  | (k2, v) :: rest => if k2 = k then removeKey k rest else (k2, v) :: removeKey k rest

/-- One more than the largest `u64` value. -/
def U64_SIZE : Nat := 18446744073709551616

/-- One more than the largest `i64` value. -/
def I64_SIZE : Nat := 9223372036854775808

/-- Decimal accumulation over a character list; fails on any non-digit. -/
def parseU64Chars : List Char → Nat → Option Nat
  | [], acc => some acc
  | c :: rest, acc =>
    if c.isDigit then parseU64Chars rest (acc * 10 + (c.toNat - 48))
    else none

/-- Rust `str::parse::<u64>()`: an optional leading plus sign, then a non-empty
digit string whose value fits in 64 bits. -/
def parseU64 (s : String) : Option Nat :=
  let cs :=
    match s.data with
    | '+' :: rest => rest
    | cs => cs
  match cs with
  | [] => none
  | _ :: _ =>
    match parseU64Chars cs 0 with
    | none => none
    | some n => if n < U64_SIZE then some n else none

/-- Rust `u64 as i64` cast (two's-complement wrap of values at or above 2^63). -/
def u64AsI64 (n : Nat) : Int :=
  if n < I64_SIZE then (n : Int) else (n : Int) - (U64_SIZE : Int)

/-- Mirror of `get_data_file_for_file_index` (source lines 211-245): builds the
manifest file record for a new file-index puffin blob.  The `assert_eq!` on the
blob type and the `unwrap`s on the property lookup/parse are the abort sites;
the missing/unparseable-property aborts are the spec's `MalformedBlob`. -/
def get_data_file_for_file_index (puffin_filepath : String)
    (blob_metadata : PuffinBlobMetadataProxy) : Except RewriteError DataFile :=
  if blob_metadata.type = MOONCAKE_HASH_INDEX_V1 then
    match lookupKey MOONCAKE_HASH_INDEX_V1_CARDINALITY blob_metadata.properties with
    | none => .error .malformedBlob
    | some s =>
      match parseU64 s with
      | none => .error .malformedBlob
      | some n =>
        .ok { content := .Data
              file_path := puffin_filepath
              file_format := .Puffin
              partition := Struct.empty
              record_count := n
              file_size_in_bytes := 0
              column_sizes := []
              value_counts := []
              null_value_counts := []
              nan_value_counts := []
              lower_bounds := []
              upper_bounds := []
              key_metadata := none
              split_offsets := []
              equality_ids := []
              sort_order_id := none
              first_row_id := none
              partition_spec_id := 0
              referenced_data_file := none
              content_offset := none
              content_size_in_bytes := none }
  else .error .unexpectedBlobType

/-- Mirror of `get_data_file_for_deletion_vector` (source lines 248-289): builds
the referenced data file path and the manifest file record for a deletion-vector
puffin blob.  `content_offset`/`content_size_in_bytes` are the blob's
offset/length under the Rust `u64 as i64` cast. -/
def get_data_file_for_deletion_vector (puffin_filepath : String)
    (blob_metadata : PuffinBlobMetadataProxy) :
    Except RewriteError (String × DataFile) :=
  if blob_metadata.type = DELETION_VECTOR_V1 then
    match lookupKey DELETION_VECTOR_REFERENCED_DATA_FILE blob_metadata.properties with
    | none => .error .malformedBlob
    | some referenced_data_filepath =>
      match lookupKey DELETION_VECTOR_CADINALITY blob_metadata.properties with
      | none => .error .malformedBlob
      | some s =>
        match parseU64 s with
        | none => .error .malformedBlob
        | some n =>
          .ok (referenced_data_filepath,
               { content := .PositionDeletes
                 file_path := puffin_filepath
                 file_format := .Puffin
                 partition := Struct.empty
                 record_count := n
                 file_size_in_bytes := 0
                 column_sizes := []
                 value_counts := []
                 null_value_counts := []
                 nan_value_counts := []
                 lower_bounds := []
                 upper_bounds := []
                 key_metadata := none
                 split_offsets := []
                 equality_ids := []
                 sort_order_id := none
                 first_row_id := none
                 partition_spec_id := 0
                 referenced_data_file := some referenced_data_filepath
                 content_offset := some (u64AsI64 blob_metadata.offset)
                 content_size_in_bytes := some (u64AsI64 blob_metadata.length) })
  else .error .unexpectedBlobType

/-- In-memory state of one rewrite pass (`append_puffin_metadata_and_rewrite`,
source lines 362-541): the buffered manifest-list carry-overs, the three lazily
created manifest writers (a writer that was never created is the empty buffer;
in the source a writer is `Some` exactly when at least one entry was added to
it), and the map from referenced data file to the kept deletion-vector entry. -/
structure PassState where
  carryovers : List Manifest
  dataEntries : List (DataFile × Int)
  indexEntries : List (DataFile × Int)
  deletionVectorEntries : List (DataFile × Int)
  existing_deletion_vector_entries : List (String × ManifestEntry)
  deriving DecidableEq, Inhabited

/-- Initial pass state: nothing buffered. -/
def PassState.init : PassState := ⟨[], [], [], [], []⟩

/-- Mirror of the per-entry classification body of the scan loop (source lines
437-505): data-file entries are dropped when in the removal set and otherwise
appended to the data writer; file-index entries likewise against the blob
removal set; deletion-vector entries are dropped when their referenced file is
removed and otherwise inserted into the reconciler map, failing on a duplicate
referenced path. -/
def scanEntry (data_files_to_remove puffin_blobs_to_remove : List String)
    (content : ManifestContentType) (st : PassState) (e : ManifestEntry) :
    Except RewriteError PassState :=
  if e.data_file.file_format = DataFileFormat.Parquet then
    if content = ManifestContentType.Data then
      if e.data_file.file_path ∈ data_files_to_remove then .ok st
      else
        match e.sequence_number with
        | none => .error .missingSequenceNumber
        | some s => .ok { st with dataEntries := st.dataEntries ++ [(e.data_file, s)] }
    else .error .inconsistentManifest
  else if e.data_file.file_format = DataFileFormat.Puffin then
    if content = ManifestContentType.Data then
      if e.data_file.file_path ∈ puffin_blobs_to_remove then .ok st
      else
        match e.sequence_number with
        | none => .error .missingSequenceNumber
        | some s => .ok { st with indexEntries := st.indexEntries ++ [(e.data_file, s)] }
    else
      match e.data_file.referenced_data_file with
      | none => .error .missingReferencedDataFile
      | some referenced_data_file =>
        if referenced_data_file ∈ data_files_to_remove then .ok st
        else
          match lookupKey referenced_data_file st.existing_deletion_vector_entries with
          | some _ => .error (.duplicateDeletionVector referenced_data_file)
          | none =>
            .ok { st with existing_deletion_vector_entries :=
                    st.existing_deletion_vector_entries ++ [(referenced_data_file, e)] }
  else .error .inconsistentManifest

/-- Scan of the entries of one manifest file, in order. -/
def scanEntries (data_files_to_remove puffin_blobs_to_remove : List String)
    (content : ManifestContentType) :
    PassState → List ManifestEntry → Except RewriteError PassState
  | st, [] => .ok st
  | st, e :: rest =>
    match scanEntry data_files_to_remove puffin_blobs_to_remove content st e with
    | .error err => .error err
    | .ok st2 => scanEntries data_files_to_remove puffin_blobs_to_remove content st2 rest

/-- Mirror of the per-manifest body of the scan loop (source lines 420-434): an
empty manifest aborts (`assert!(!manifest_entries.is_empty())`); a data manifest
whose first entry is parquet is re-registered unchanged when there is nothing to
remove; otherwise every entry is classified. -/
def scanManifest (data_files_to_remove puffin_blobs_to_remove : List String)
    (st : PassState) (m : Manifest) : Except RewriteError PassState :=
  match m.entries with
  | [] => .error .emptyManifest
  | e0 :: _ =>
    if m.content = ManifestContentType.Data ∧
        e0.data_file.file_format = DataFileFormat.Parquet ∧
        data_files_to_remove.isEmpty then
      .ok { st with carryovers := st.carryovers ++ [m] }
    else
      scanEntries data_files_to_remove puffin_blobs_to_remove m.content st m.entries

/-- Scan of the whole manifest list, in order. -/
def scanManifests (data_files_to_remove puffin_blobs_to_remove : List String) :
    PassState → List Manifest → Except RewriteError PassState
  | st, [] => .ok st
  | st, m :: rest =>
    match scanManifest data_files_to_remove puffin_blobs_to_remove st m with
    | .error err => .error err
    | .ok st2 => scanManifests data_files_to_remove puffin_blobs_to_remove st2 rest

/-- Mirror of the per-blob body of the additions loop (source lines 510-531):
hash-index blobs are appended to the index writer; every other blob is treated
as a deletion vector, its record supersedes any reconciler-map binding for the
same referenced file and is appended to the deletion-vector writer. -/
def addBlob (puffin_filepath : String) (st : PassState)
    (cur_blob_metadata : PuffinBlobMetadataProxy) : Except RewriteError PassState :=
  if cur_blob_metadata.type = MOONCAKE_HASH_INDEX_V1 then
    match get_data_file_for_file_index puffin_filepath cur_blob_metadata with
    | .error err => .error err
    | .ok data_file =>
      .ok { st with indexEntries :=
              st.indexEntries ++ [(data_file, cur_blob_metadata.sequence_number)] }
  else
    match get_data_file_for_deletion_vector puffin_filepath cur_blob_metadata with
    | .error err => .error err
    | .ok (referenced_data_filepath, data_file) =>
      .ok { st with
              existing_deletion_vector_entries :=
                removeKey referenced_data_filepath st.existing_deletion_vector_entries
              deletionVectorEntries :=
                st.deletionVectorEntries ++ [(data_file, cur_blob_metadata.sequence_number)] }

/-- Additions of all blobs of one puffin file, in order. -/
def addBlobs (puffin_filepath : String) :
    PassState → List PuffinBlobMetadataProxy → Except RewriteError PassState
  | st, [] => .ok st
  | st, b :: rest =>
    match addBlob puffin_filepath st b with
    | .error err => .error err
    | .ok st2 => addBlobs puffin_filepath st2 rest

/-- Mirror of the additions loop (source lines 509-532) over the blobs-to-add
map, one puffin file at a time. -/
def processAdditions :
    PassState → List (String × List PuffinBlobMetadataProxy) → Except RewriteError PassState
  | st, [] => .ok st
  | st, (puffin_filepath, blob_metadata) :: rest =>
    match addBlobs puffin_filepath st blob_metadata with
    | .error err => .error err
    | .ok st2 => processAdditions st2 rest

/-- Mirror of the drain loop (source lines 535-541): every deletion-vector
entry that was not superseded is appended to the deletion-vector writer with
its original sequence number. -/
def drainDV : List (String × ManifestEntry) → List (DataFile × Int) →
    Except RewriteError (List (DataFile × Int))
  | [], acc => .ok acc
  | (_, cur_manifest_entry) :: rest, acc =>
    match cur_manifest_entry.sequence_number with
    | none => .error .missingSequenceNumber
    | some s => drainDV rest (acc ++ [(cur_manifest_entry.data_file, s)])

/-- The pure core of one rewrite pass: scan of the existing manifests, merge of
the added blobs, drain of the surviving deletion vectors. -/
def processAll (data_files_to_remove : List String)
    (puffin_blobs_to_add : List (String × List PuffinBlobMetadataProxy))
    (puffin_blobs_to_remove : List String) (manifest_list : List Manifest) :
    Except RewriteError PassState :=
  match scanManifests data_files_to_remove puffin_blobs_to_remove PassState.init manifest_list with
  | .error err => .error err
  | .ok st1 =>
    match processAdditions st1 puffin_blobs_to_add with
    | .error err => .error err
    | .ok st2 =>
      match drainDV st2.existing_deletion_vector_entries st2.deletionVectorEntries with
      | .error err => .error err
      | .ok dv =>
        .ok { st2 with deletionVectorEntries := dv, existing_deletion_vector_entries := [] }

/-- Manifest entry written by a manifest writer for a buffered (file, sequence
number) pair. -/
def mkEntry (p : DataFile × Int) : ManifestEntry := ⟨p.1, some p.2⟩

/-- The new manifest files materialized from the writers that received at least
one entry (source lines 543-569): data, then file-index (both with `Data`
content, `build_v2_data`), then deletion-vector (`Deletes` content,
`build_v2_deletes`). -/
def newManifests (st : PassState) : List Manifest :=
  (if st.dataEntries.isEmpty then []
   else [⟨ManifestContentType.Data, st.dataEntries.map mkEntry⟩])
  ++ (if st.indexEntries.isEmpty then []
      else [⟨ManifestContentType.Data, st.indexEntries.map mkEntry⟩])
  ++ (if st.deletionVectorEntries.isEmpty then []
      else [⟨ManifestContentType.Deletes, st.deletionVectorEntries.map mkEntry⟩])

/-- Visible storage state: the manifest-list content the current snapshot points
at (`none` when the table has no current snapshot) and the log of manifest file
objects physically written (orphaned unless the pass completes). -/
structure Store where
  snapshot : Option (List Manifest)
  written : List Manifest
  deriving DecidableEq, Inhabited

/-- Physical writes of the new manifest files, one write operation per file;
the `faults` oracle decides which write fails with a storage error.  A failed
write aborts, leaving the files already written as orphans. -/
def writeManifests (faults : Nat → Bool) :
    Nat → List Manifest → Store → Store × Option RewriteError
  | _, [], store => (store, none)
  | k, m :: rest, store =>
    if faults k then (store, some .storageIoError)
    else writeManifests faults (k + 1) rest { store with written := store.written ++ [m] }

/-- Materialize-and-close phase (source lines 543-572): write the new manifest
files, then close the manifest-list writer, which atomically publishes the new
manifest list (carry-overs first, in scan order, then the new manifests in
flush order).  A failure leaves the snapshot's manifest list untouched. -/
def flushPhase (faults : Nat → Bool) (st : PassState) (store : Store) :
    Except RewriteError Unit × Store :=
  let ms := newManifests st
  match writeManifests faults 0 ms store with
  | (store2, some err) => (.error err, store2)
  | (store2, none) =>
    if faults ms.length then (.error .storageIoError, store2)
    else (.ok (), { store2 with snapshot := some (st.carryovers ++ ms) })

/-- Mirror of `append_puffin_metadata_and_rewrite` (source lines 348-575): the
fast exit on three empty inputs, the `unwrap` of the current snapshot
(`NoCurrentSnapshot` when the table has none), the pure scan/merge/drain pass,
and the flush of the new manifest files and manifest list. -/
def append_puffin_metadata_and_rewrite (faults : Nat → Bool)
    (data_files_to_remove : List String)
    (puffin_blobs_to_add : List (String × List PuffinBlobMetadataProxy))
    (puffin_blobs_to_remove : List String) (store : Store) :
    Except RewriteError Unit × Store :=
  if data_files_to_remove.isEmpty ∧ puffin_blobs_to_add.isEmpty ∧
      puffin_blobs_to_remove.isEmpty then
    (.ok (), store)
  else
    match store.snapshot with
    | none => (.error .noCurrentSnapshot, store)
    | some manifest_list =>
      match processAll data_files_to_remove puffin_blobs_to_add puffin_blobs_to_remove
          manifest_list with
      | .error err => (.error err, store)
      | .ok st => flushPhase faults st store

/-- All manifest entries of a manifest list. -/
def allEntries (manifest_list : List Manifest) : List ManifestEntry :=
  (manifest_list.map Manifest.entries).flatten

/-- The deletion-vector records of a manifest list: the entries of its
`Deletes`-content manifests. -/
def deletionVectorRecords (manifest_list : List Manifest) : List ManifestEntry :=
  ((manifest_list.filter (fun m => decide (m.content = ManifestContentType.Deletes))).map
    Manifest.entries).flatten

/-- Number of deletion-vector records of a manifest list referencing the data
file `p`. -/
def countDVRefs (manifest_list : List Manifest) (p : String) : Nat :=
  ((deletionVectorRecords manifest_list).filter
    (fun e => decide (e.data_file.referenced_data_file = some p))).length

/-- The referenced data file a blob would contribute as a deletion vector: no
contribution for hash-index blobs, otherwise the referenced-data-file property. -/
def blobDVRef (b : PuffinBlobMetadataProxy) : Option String :=
  if b.type = MOONCAKE_HASH_INDEX_V1 then none
  else lookupKey DELETION_VECTOR_REFERENCED_DATA_FILE b.properties

/-- All referenced data files contributed by the deletion-vector blobs of the
blobs-to-add map, in processing order. -/
def addedDVRefs (puffin_blobs_to_add : List (String × List PuffinBlobMetadataProxy)) :
    List String :=
  (puffin_blobs_to_add.map (fun pr => pr.2.filterMap blobDVRef)).flatten

/-- The (puffin file, blob) occurrences of the blobs-to-add map that contribute
a deletion vector referencing the data file `D`, in processing order. -/
def dvOccurrencesFor (puffin_blobs_to_add : List (String × List PuffinBlobMetadataProxy))
    (D : String) : List (String × PuffinBlobMetadataProxy) :=
  (puffin_blobs_to_add.map (fun pr =>
    (pr.2.filter (fun b => decide (blobDVRef b = some D))).map (fun b => (pr.1, b)))).flatten

/-- The deletion-vector record a blob builds (default value when the build
fails, which never happens on a successful pass). -/
def dvRecordOf (path : String) (b : PuffinBlobMetadataProxy) : DataFile :=
  match get_data_file_for_deletion_vector path b with
  | .ok pr => pr.2
  | .error _ => default

/-! ## Association-list helper lemmas -/

theorem lookupKey_eq_none_iff {β : Type} {k : String} {m : List (String × β)} :
    lookupKey k m = none ↔ k ∉ m.map Prod.fst := by
  induction m with
  | nil => simp [lookupKey]
  | cons p rest ih =>
    obtain ⟨k2, v⟩ := p
    by_cases h : k2 = k
    · subst h; simp [lookupKey]
    · simp only [lookupKey, if_neg h, List.map_cons, List.mem_cons, not_or, ih]
      constructor
      · intro hk; exact ⟨fun hek => h hek.symm, hk⟩
      · intro hk; exact hk.2

theorem removeKey_sublist {β : Type} (k : String) (m : List (String × β)) :
    List.Sublist (removeKey k m) m := by
  induction m with
  | nil => simp [removeKey]
  | cons p rest ih =>
    obtain ⟨k2, v⟩ := p
    by_cases h : k2 = k
    · simp only [removeKey, if_pos h]
      exact ih.cons _
    · simp only [removeKey, if_neg h]
      exact ih.cons₂ _

theorem mem_removeKey {β : Type} {q : String × β} {k : String} {m : List (String × β)}
    (h : q ∈ removeKey k m) : q ∈ m :=
  (removeKey_sublist k m).mem h

theorem mem_map_fst_removeKey {β : Type} {a k : String} {m : List (String × β)} :
    a ∈ (removeKey k m).map Prod.fst ↔ a ∈ m.map Prod.fst ∧ a ≠ k := by
  induction m with
  | nil => simp [removeKey]
  | cons p rest ih =>
    obtain ⟨k2, v⟩ := p
    by_cases h : k2 = k
    · subst h
      rw [show removeKey k2 ((k2, v) :: rest) = removeKey k2 rest from by
        simp [removeKey]]
      rw [ih]
      simp only [List.map_cons, List.mem_cons]
      constructor
      · intro hk; exact ⟨Or.inr hk.1, hk.2⟩
      · rintro ⟨hk | hk, hne⟩
        · exact absurd hk hne
        · exact ⟨hk, hne⟩
    · rw [show removeKey k ((k2, v) :: rest) = (k2, v) :: removeKey k rest from by
        simp [removeKey, h]]
      simp only [List.map_cons, List.mem_cons, ih]
      constructor
      · rintro (hk | hk)
        · subst hk; exact ⟨Or.inl rfl, fun he => h he⟩
        · exact ⟨Or.inr hk.1, hk.2⟩
      · rintro ⟨hk | hk, hne⟩
        · exact Or.inl hk
        · exact Or.inr ⟨hk, hne⟩

theorem nodup_map_fst_removeKey {β : Type} {k : String} {m : List (String × β)}
    (h : (m.map Prod.fst).Nodup) : ((removeKey k m).map Prod.fst).Nodup :=
  (((removeKey_sublist k m).map Prod.fst).nodup h)

/-! ## Counting helper lemmas -/

theorem filter_eq_nil_of_not_mem {p : String} {l : List String} (h : p ∉ l) :
    l.filter (fun x => decide (x = p)) = [] := by
  induction l with
  | nil => rfl
  | cons a rest ih =>
    simp only [List.mem_cons, not_or] at h
    have hap : ¬a = p := fun hap => h.1 hap.symm
    simp [List.filter_cons, hap, ih h.2]

theorem length_filter_le_one_of_nodup {p : String} {l : List String} (h : l.Nodup) :
    (l.filter (fun x => decide (x = p))).length ≤ 1 := by
  induction l with
  | nil => simp
  | cons a rest ih =>
    rw [List.nodup_cons] at h
    by_cases hap : a = p
    · subst hap
      simp [List.filter_cons, filter_eq_nil_of_not_mem h.1]
    · simpa [List.filter_cons, hap] using ih h.2

theorem length_filter_map_some {p : String} {l : List String} :
    ((l.map some).filter (fun o => decide (o = some p))).length =
      (l.filter (fun x => decide (x = p))).length := by
  induction l with
  | nil => rfl
  | cons a rest ih =>
    by_cases hap : a = p
    · subst hap; simp [List.filter_cons, ih]
    · simp [List.filter_cons, hap, ih]

theorem nodup_append_singleton {α : Type} {l : List α} {a : α}
    (h : l.Nodup) (ha : a ∉ l) : (l ++ [a]).Nodup := by
  rw [List.nodup_append]
  refine ⟨h, List.nodup_singleton a, ?_⟩
  intro x hx hx2
  rw [List.mem_singleton] at hx2
  subst hx2
  exact ha hx

/-! ## Builder facts -/

theorem get_dv_ok_fields {path : String} {b : PuffinBlobMetadataProxy}
    {r : String} {df : DataFile}
    (h : get_data_file_for_deletion_vector path b = .ok (r, df)) :
    b.type = DELETION_VECTOR_V1 ∧
    lookupKey DELETION_VECTOR_REFERENCED_DATA_FILE b.properties = some r ∧
    df.referenced_data_file = some r ∧
    df.file_format = DataFileFormat.Puffin ∧
    df.file_path = path ∧
    df.content = DataContentType.PositionDeletes ∧
    df.file_size_in_bytes = 0 := by
  unfold get_data_file_for_deletion_vector at h
  split at h
  · rename_i htype
    split at h
    · cases h
    · rename_i rv href
      split at h
      · cases h
      · rename_i s hcard
        split at h
        · cases h
        · rename_i n hp
          simp only [Except.ok.injEq, Prod.mk.injEq] at h
          obtain ⟨hr, hdf⟩ := h
          subst hr
          subst hdf
          exact ⟨htype, href, rfl, rfl, rfl, rfl, rfl⟩
  · cases h

theorem get_idx_ok_fields {path : String} {b : PuffinBlobMetadataProxy} {df : DataFile}
    (h : get_data_file_for_file_index path b = .ok df) :
    b.type = MOONCAKE_HASH_INDEX_V1 ∧
    df.referenced_data_file = none ∧
    df.file_format = DataFileFormat.Puffin ∧
    df.file_path = path ∧
    df.content = DataContentType.Data ∧
    df.file_size_in_bytes = 0 := by
  unfold get_data_file_for_file_index at h
  split at h
  · rename_i htype
    split at h
    · cases h
    · rename_i s hcard
      split at h
      · cases h
      · rename_i n hp
        simp only [Except.ok.injEq] at h
        subst h
        exact ⟨htype, rfl, rfl, rfl, rfl, rfl⟩
  · cases h

/-! ## Scan-phase invariant -/

/-- Invariant maintained over the pass state by the scan, additions and drain
phases. -/
structure ScanInv (data_files_to_remove : List String) (st : PassState) : Prop where
  nodupKeys : (st.existing_deletion_vector_entries.map Prod.fst).Nodup
  keysNotRemoved : ∀ k ∈ st.existing_deletion_vector_entries.map Prod.fst,
    k ∉ data_files_to_remove
  mapVal : ∀ q ∈ st.existing_deletion_vector_entries,
    q.2.data_file.referenced_data_file = some q.1 ∧
    q.2.data_file.file_format = DataFileFormat.Puffin
  dataInv : ∀ q ∈ st.dataEntries,
    q.1.file_path ∉ data_files_to_remove ∧ q.1.file_format = DataFileFormat.Parquet
  indexInv : ∀ q ∈ st.indexEntries, q.1.file_format = DataFileFormat.Puffin
  dvInv : ∀ q ∈ st.deletionVectorEntries, q.1.file_format = DataFileFormat.Puffin
  carryData : ∀ m ∈ st.carryovers, m.content = ManifestContentType.Data
  carryEmpty : data_files_to_remove = [] ∨ st.carryovers = []

theorem scanInv_init (data_files_to_remove : List String) :
    ScanInv data_files_to_remove PassState.init := by
  constructor <;> simp [PassState.init]

theorem scanEntry_inv {dfr pbr : List String} {content : ManifestContentType}
    {st st2 : PassState} {e : ManifestEntry}
    (hinv : ScanInv dfr st)
    (h : scanEntry dfr pbr content st e = .ok st2) :
    ScanInv dfr st2 ∧ st2.carryovers = st.carryovers ∧
    st2.deletionVectorEntries = st.deletionVectorEntries := by
  unfold scanEntry at h
  split at h
  · rename_i hfmt
    split at h
    · split at h
      · simp only [Except.ok.injEq] at h
        subst h
        exact ⟨hinv, rfl, rfl⟩
      · rename_i hpath
        split at h
        · cases h
        · rename_i s hseq
          simp only [Except.ok.injEq] at h
          subst h
          refine ⟨⟨hinv.nodupKeys, hinv.keysNotRemoved, hinv.mapVal, ?_,
            hinv.indexInv, hinv.dvInv, hinv.carryData, hinv.carryEmpty⟩, rfl, rfl⟩
          intro q hq
          rcases List.mem_append.mp hq with hq | hq
          · exact hinv.dataInv q hq
          · rw [List.mem_singleton] at hq
            subst hq
            exact ⟨hpath, hfmt⟩
    · cases h
  · split at h
    · rename_i hfmt2
      split at h
      · split at h
        · simp only [Except.ok.injEq] at h
          subst h
          exact ⟨hinv, rfl, rfl⟩
        · split at h
          · cases h
          · rename_i s hseq
            simp only [Except.ok.injEq] at h
            subst h
            refine ⟨⟨hinv.nodupKeys, hinv.keysNotRemoved, hinv.mapVal, hinv.dataInv,
              ?_, hinv.dvInv, hinv.carryData, hinv.carryEmpty⟩, rfl, rfl⟩
            intro q hq
            rcases List.mem_append.mp hq with hq | hq
            · exact hinv.indexInv q hq
            · rw [List.mem_singleton] at hq
              subst hq
              exact hfmt2
      · split at h
        · cases h
        · rename_i ref href
          split at h
          · simp only [Except.ok.injEq] at h
            subst h
            exact ⟨hinv, rfl, rfl⟩
          · rename_i hrefdfr
            split at h
            · cases h
            · rename_i hlook
              simp only [Except.ok.injEq] at h
              subst h
              have hnotmem : ref ∉ st.existing_deletion_vector_entries.map Prod.fst :=
                lookupKey_eq_none_iff.mp hlook
              refine ⟨⟨?_, ?_, ?_, hinv.dataInv, hinv.indexInv, hinv.dvInv,
                hinv.carryData, hinv.carryEmpty⟩, rfl, rfl⟩
              · rw [List.map_append]
                exact nodup_append_singleton hinv.nodupKeys hnotmem
              · intro k hk
                rw [List.map_append, List.mem_append] at hk
                rcases hk with hk | hk
                · exact hinv.keysNotRemoved k hk
                · simp only [List.map_cons, List.map_nil, List.mem_singleton] at hk
                  subst hk
                  exact hrefdfr
              · intro q hq
                rcases List.mem_append.mp hq with hq | hq
                · exact hinv.mapVal q hq
                · rw [List.mem_singleton] at hq
                  subst hq
                  exact ⟨href, hfmt2⟩
    · cases h

theorem scanEntries_inv {dfr pbr : List String} {content : ManifestContentType}
    {st st2 : PassState} {es : List ManifestEntry}
    (hinv : ScanInv dfr st)
    (h : scanEntries dfr pbr content st es = .ok st2) :
    ScanInv dfr st2 ∧ st2.carryovers = st.carryovers ∧
    st2.deletionVectorEntries = st.deletionVectorEntries := by
  induction es generalizing st with
  | nil =>
    unfold scanEntries at h
    simp only [Except.ok.injEq] at h
    subst h
    exact ⟨hinv, rfl, rfl⟩
  | cons e rest ih =>
    unfold scanEntries at h
    split at h
    · cases h
    · rename_i st3 hstep
      obtain ⟨hinv3, hc3, hd3⟩ := scanEntry_inv hinv hstep
      obtain ⟨hinv2, hc2, hd2⟩ := ih hinv3 h
      exact ⟨hinv2, hc2.trans hc3, hd2.trans hd3⟩

theorem scanManifest_inv {dfr pbr : List String} {st st2 : PassState} {m : Manifest}
    (hinv : ScanInv dfr st)
    (h : scanManifest dfr pbr st m = .ok st2) :
    ScanInv dfr st2 ∧ st2.deletionVectorEntries = st.deletionVectorEntries := by
  unfold scanManifest at h
  split at h
  · cases h
  · split at h
    · rename_i hcond
      simp only [Except.ok.injEq] at h
      subst h
      refine ⟨⟨hinv.nodupKeys, hinv.keysNotRemoved, hinv.mapVal, hinv.dataInv,
        hinv.indexInv, hinv.dvInv, ?_, ?_⟩, rfl⟩
      · intro m2 hm2
        rcases List.mem_append.mp hm2 with hm2 | hm2
        · exact hinv.carryData m2 hm2
        · rw [List.mem_singleton] at hm2
          subst hm2
          exact hcond.1
      · left
        exact List.isEmpty_iff.mp hcond.2.2
    · obtain ⟨hinv2, _, hd2⟩ := scanEntries_inv hinv h
      exact ⟨hinv2, hd2⟩

theorem scanManifests_inv {dfr pbr : List String} {st st2 : PassState}
    {ml : List Manifest}
    (hinv : ScanInv dfr st)
    (h : scanManifests dfr pbr st ml = .ok st2) :
    ScanInv dfr st2 ∧ st2.deletionVectorEntries = st.deletionVectorEntries := by
  induction ml generalizing st with
  | nil =>
    unfold scanManifests at h
    simp only [Except.ok.injEq] at h
    subst h
    exact ⟨hinv, rfl⟩
  | cons m rest ih =>
    unfold scanManifests at h
    split at h
    · cases h
    · rename_i st3 hstep
      obtain ⟨hinv3, hd3⟩ := scanManifest_inv hinv hstep
      obtain ⟨hinv2, hd2⟩ := ih hinv3 h
      exact ⟨hinv2, hd2.trans hd3⟩

/-! ## Additions-phase lemmas -/

/-- Referenced data files of buffered deletion-vector writer entries. -/
def dvRefs (l : List (DataFile × Int)) : List (Option String) :=
  l.map (fun q => q.1.referenced_data_file)

/-- Buffered deletion-vector writer entries referencing `D`. -/
def dvFilterD (D : String) (l : List (DataFile × Int)) : List (DataFile × Int) :=
  l.filter (fun q => decide (q.1.referenced_data_file = some D))

theorem addBlob_ok_spec {dfr : List String} {path : String} {st st2 : PassState}
    {b : PuffinBlobMetadataProxy}
    (hinv : ScanInv dfr st)
    (h : addBlob path st b = .ok st2) :
    ScanInv dfr st2 ∧
    st2.carryovers = st.carryovers ∧
    st2.dataEntries = st.dataEntries ∧
    (∀ k, k ∈ st2.existing_deletion_vector_entries.map Prod.fst →
      k ∈ st.existing_deletion_vector_entries.map Prod.fst ∧ blobDVRef b ≠ some k) ∧
    (∀ q ∈ st2.existing_deletion_vector_entries, q ∈ st.existing_deletion_vector_entries) ∧
    dvRefs st2.deletionVectorEntries =
      dvRefs st.deletionVectorEntries ++ ((blobDVRef b).toList).map some ∧
    (∀ D : String, dvFilterD D st2.deletionVectorEntries =
      dvFilterD D st.deletionVectorEntries ++
        (if blobDVRef b = some D then [(dvRecordOf path b, b.sequence_number)] else [])) := by
  unfold addBlob at h
  split at h
  · rename_i htype
    split at h
    · cases h
    · rename_i df hget
      simp only [Except.ok.injEq] at h
      subst h
      have hfields := get_idx_ok_fields hget
      have hdvref : blobDVRef b = none := by
        unfold blobDVRef
        rw [if_pos htype]
      refine ⟨⟨hinv.nodupKeys, hinv.keysNotRemoved, hinv.mapVal, hinv.dataInv, ?_,
        hinv.dvInv, hinv.carryData, hinv.carryEmpty⟩, rfl, rfl, ?_, ?_, ?_, ?_⟩
      · intro q hq
        rcases List.mem_append.mp hq with hq | hq
        · exact hinv.indexInv q hq
        · rw [List.mem_singleton] at hq
          subst hq
          exact hfields.2.2.1
      · intro k hk
        exact ⟨hk, by rw [hdvref]; intro hcon; cases hcon⟩
      · intro q hq
        exact hq
      · rw [hdvref]
        simp [dvRefs]
      · intro D
        rw [hdvref]
        simp [dvFilterD]
  · rename_i htype
    split at h
    · cases h
    · rename_i r df hget
      simp only [Except.ok.injEq] at h
      subst h
      have hfields := get_dv_ok_fields hget
      have hdvref : blobDVRef b = some r := by
        unfold blobDVRef
        rw [if_neg htype, hfields.2.1]
      refine ⟨⟨?_, ?_, ?_, hinv.dataInv, hinv.indexInv, ?_, hinv.carryData,
        hinv.carryEmpty⟩, rfl, rfl, ?_, ?_, ?_, ?_⟩
      · exact nodup_map_fst_removeKey hinv.nodupKeys
      · intro k hk
        exact hinv.keysNotRemoved k (mem_map_fst_removeKey.mp hk).1
      · intro q hq
        exact hinv.mapVal q (mem_removeKey hq)
      · intro q hq
        rcases List.mem_append.mp hq with hq | hq
        · exact hinv.dvInv q hq
        · rw [List.mem_singleton] at hq
          subst hq
          exact hfields.2.2.2.1
      · intro k hk
        obtain ⟨hk1, hk2⟩ := mem_map_fst_removeKey.mp hk
        refine ⟨hk1, ?_⟩
        rw [hdvref]
        intro hcon
        simp only [Option.some.injEq] at hcon
        exact hk2 hcon.symm
      · intro q hq
        exact mem_removeKey hq
      · rw [hdvref]
        simp only [dvRefs, List.map_append, Option.toList_some, List.map_cons, List.map_nil]
        rw [hfields.2.2.1]
      · intro D
        rw [hdvref]
        have hrec : dvRecordOf path b = df := by
          unfold dvRecordOf
          rw [hget]
        by_cases hrD : r = D
        · subst hrD
          simp only [dvFilterD, List.filter_append, if_pos rfl, hrec]
          congr 1
          simp [hfields.2.2.1]
        · rw [if_neg (by intro hcon; exact hrD (Option.some_inj.mp hcon))]
          simp only [dvFilterD, List.filter_append]
          have hf : List.filter (fun q => decide (q.1.referenced_data_file = some D))
              [(df, b.sequence_number)] = [] := by
            simp only [List.filter_cons, List.filter_nil]
            rw [hfields.2.2.1]
            simp [hrD]
          rw [hf, List.append_nil]

theorem addBlobs_ok_spec {dfr : List String} {path : String} {st st2 : PassState}
    {bs : List PuffinBlobMetadataProxy}
    (hinv : ScanInv dfr st)
    (h : addBlobs path st bs = .ok st2) :
    ScanInv dfr st2 ∧
    st2.carryovers = st.carryovers ∧
    st2.dataEntries = st.dataEntries ∧
    (∀ k, k ∈ st2.existing_deletion_vector_entries.map Prod.fst →
      k ∈ st.existing_deletion_vector_entries.map Prod.fst ∧
        ∀ b ∈ bs, blobDVRef b ≠ some k) ∧
    (∀ q ∈ st2.existing_deletion_vector_entries, q ∈ st.existing_deletion_vector_entries) ∧
    dvRefs st2.deletionVectorEntries =
      dvRefs st.deletionVectorEntries ++ (bs.filterMap blobDVRef).map some ∧
    (∀ D : String, dvFilterD D st2.deletionVectorEntries =
      dvFilterD D st.deletionVectorEntries ++
        (bs.filter (fun b => decide (blobDVRef b = some D))).map
          (fun b => (dvRecordOf path b, b.sequence_number))) := by
  induction bs generalizing st with
  | nil =>
    unfold addBlobs at h
    simp only [Except.ok.injEq] at h
    subst h
    refine ⟨hinv, rfl, rfl, fun k hk => ⟨hk, by simp⟩, fun q hq => hq, by simp, fun D => by simp⟩
  | cons b rest ih =>
    unfold addBlobs at h
    split at h
    · cases h
    · rename_i st3 hstep
      obtain ⟨hinv3, hc3, hd3, hkeys3, hmem3, hrefs3, hfil3⟩ := addBlob_ok_spec hinv hstep
      obtain ⟨hinv2, hc2, hd2, hkeys2, hmem2, hrefs2, hfil2⟩ := ih hinv3 h
      refine ⟨hinv2, hc2.trans hc3, hd2.trans hd3, ?_, ?_, ?_, ?_⟩
      · intro k hk
        obtain ⟨hk3, hkrest⟩ := hkeys2 k hk
        obtain ⟨hk0, hkb⟩ := hkeys3 k hk3
        refine ⟨hk0, ?_⟩
        intro b2 hb2
        rcases List.mem_cons.mp hb2 with hb2 | hb2
        · subst hb2
          exact hkb
        · exact hkrest b2 hb2
      · intro q hq
        exact hmem3 q (hmem2 q hq)
      · rw [hrefs2, hrefs3, List.append_assoc, ← List.map_append]
        congr 2
        cases hb : blobDVRef b <;> simp [List.filterMap_cons, hb]
      · intro D
        rw [hfil2 D, hfil3 D, List.append_assoc]
        congr 1
        by_cases hbD : blobDVRef b = some D
        · simp [List.filter_cons, hbD]
        · simp [List.filter_cons, hbD]

theorem processAdditions_ok_spec {dfr : List String} {st st2 : PassState}
    {pba : List (String × List PuffinBlobMetadataProxy)}
    (hinv : ScanInv dfr st)
    (h : processAdditions st pba = .ok st2) :
    ScanInv dfr st2 ∧
    st2.carryovers = st.carryovers ∧
    st2.dataEntries = st.dataEntries ∧
    (∀ k, k ∈ st2.existing_deletion_vector_entries.map Prod.fst →
      k ∈ st.existing_deletion_vector_entries.map Prod.fst ∧ k ∉ addedDVRefs pba) ∧
    (∀ q ∈ st2.existing_deletion_vector_entries, q ∈ st.existing_deletion_vector_entries) ∧
    dvRefs st2.deletionVectorEntries =
      dvRefs st.deletionVectorEntries ++ (addedDVRefs pba).map some ∧
    (∀ D : String, dvFilterD D st2.deletionVectorEntries =
      dvFilterD D st.deletionVectorEntries ++
        (dvOccurrencesFor pba D).map (fun oc => (dvRecordOf oc.1 oc.2, oc.2.sequence_number))) := by
  induction pba generalizing st with
  | nil =>
    unfold processAdditions at h
    simp only [Except.ok.injEq] at h
    subst h
    refine ⟨hinv, rfl, rfl, fun k hk => ⟨hk, by simp [addedDVRefs]⟩, fun q hq => hq,
      by simp [addedDVRefs], fun D => by simp [dvOccurrencesFor]⟩
  | cons pr rest ih =>
    obtain ⟨path, bs⟩ := pr
    unfold processAdditions at h
    split at h
    · cases h
    · rename_i st3 hstep
      obtain ⟨hinv3, hc3, hd3, hkeys3, hmem3, hrefs3, hfil3⟩ := addBlobs_ok_spec hinv hstep
      obtain ⟨hinv2, hc2, hd2, hkeys2, hmem2, hrefs2, hfil2⟩ := ih hinv3 h
      have haddcons : addedDVRefs ((path, bs) :: rest) =
          bs.filterMap blobDVRef ++ addedDVRefs rest := by
        simp [addedDVRefs]
      refine ⟨hinv2, hc2.trans hc3, hd2.trans hd3, ?_, ?_, ?_, ?_⟩
      · intro k hk
        obtain ⟨hk3, hkrest⟩ := hkeys2 k hk
        obtain ⟨hk0, hkb⟩ := hkeys3 k hk3
        refine ⟨hk0, ?_⟩
        rw [haddcons, List.mem_append]
        rintro (hcon | hcon)
        · obtain ⟨b2, hb2, hfb2⟩ := List.mem_filterMap.mp hcon
          exact hkb b2 hb2 hfb2
        · exact hkrest hcon
      · intro q hq
        exact hmem3 q (hmem2 q hq)
      · rw [hrefs2, hrefs3, haddcons, List.append_assoc, ← List.map_append]
      · intro D
        rw [hfil2 D, hfil3 D, List.append_assoc]
        congr 1
        have hocc : dvOccurrencesFor ((path, bs) :: rest) D =
            (bs.filter (fun b => decide (blobDVRef b = some D))).map (fun b => (path, b)) ++
              dvOccurrencesFor rest D := by
          simp [dvOccurrencesFor]
        rw [hocc, List.map_append, List.map_map]
        rfl

/-! ## Drain-phase lemmas -/

theorem drainDV_ok_spec {m : List (String × ManifestEntry)} {acc dv : List (DataFile × Int)}
    (h : drainDV m acc = .ok dv) :
    dvRefs dv = dvRefs acc ++ m.map (fun q => q.2.data_file.referenced_data_file) ∧
    (∀ q ∈ dv, q ∈ acc ∨ ∃ p ∈ m, q.1 = p.2.data_file) ∧
    (∀ D : String, (∀ p ∈ m, p.2.data_file.referenced_data_file ≠ some D) →
      dvFilterD D dv = dvFilterD D acc) := by
  induction m generalizing acc with
  | nil =>
    unfold drainDV at h
    simp only [Except.ok.injEq] at h
    subst h
    exact ⟨by simp, fun q hq => Or.inl hq, fun D _ => rfl⟩
  | cons p rest ih =>
    obtain ⟨k, e⟩ := p
    unfold drainDV at h
    split at h
    · cases h
    · rename_i s hseq
      obtain ⟨hrefs, hmem, hfil⟩ := ih h
      refine ⟨?_, ?_, ?_⟩
      · rw [hrefs]
        simp [dvRefs]
      · intro q hq
        rcases hmem q hq with hq2 | hq2
        · rcases List.mem_append.mp hq2 with hq3 | hq3
          · exact Or.inl hq3
          · rw [List.mem_singleton] at hq3
            subst hq3
            exact Or.inr ⟨(k, e), List.mem_cons_self _ _, rfl⟩
        · obtain ⟨p2, hp2, hq3⟩ := hq2
          exact Or.inr ⟨p2, List.mem_cons_of_mem _ hp2, hq3⟩
      · intro D hD
        rw [hfil D (fun p2 hp2 => hD p2 (List.mem_cons_of_mem _ hp2))]
        have he : e.data_file.referenced_data_file ≠ some D :=
          hD (k, e) (List.mem_cons_self _ _)
        simp [dvFilterD, List.filter_append, List.filter_cons, he]

/-! ## Flush-phase lemmas -/

theorem writeManifests_fst_snapshot {faults : Nat → Bool} {k : Nat} {ms : List Manifest}
    {store : Store} :
    ((writeManifests faults k ms store).1).snapshot = store.snapshot := by
  induction ms generalizing k store with
  | nil => rfl
  | cons m rest ih =>
    unfold writeManifests
    cases hf : faults k
    · simp only [hf, Bool.false_eq_true, if_false]
      exact ih
    · simp [hf]

theorem flushPhase_ok_snapshot {faults : Nat → Bool} {st : PassState} {store store2 : Store}
    (h : flushPhase faults st store = (.ok (), store2)) :
    store2.snapshot = some (st.carryovers ++ newManifests st) := by
  unfold flushPhase at h
  dsimp only at h
  split at h
  · injection h with h1 h2
    cases h1
  · rename_i store3 hw
    split at h
    · injection h with h1 h2
      cases h1
    · injection h with h1 h2
      subst h2
      rfl

theorem flushPhase_error_snapshot {faults : Nat → Bool} {st : PassState}
    {store store2 : Store} {e : RewriteError}
    (h : flushPhase faults st store = (.error e, store2)) :
    store2.snapshot = store.snapshot := by
  unfold flushPhase at h
  dsimp only at h
  split at h
  · rename_i store3 err hw
    injection h with h1 h2
    subst h2
    have hws : ((writeManifests faults 0 (newManifests st) store).1).snapshot =
        store.snapshot := writeManifests_fst_snapshot
    rw [hw] at hws
    exact hws
  · rename_i store3 hw
    split at h
    · injection h with h1 h2
      subst h2
      have hws : ((writeManifests faults 0 (newManifests st) store).1).snapshot =
          store.snapshot := writeManifests_fst_snapshot
      rw [hw] at hws
      exact hws
    · injection h with h1 h2
      cases h1

/-! ## Top-level dispatch lemmas -/

theorem append_error_store {faults : Nat → Bool} {dfr : List String}
    {pba : List (String × List PuffinBlobMetadataProxy)} {pbr : List String}
    {store store2 : Store} {e : RewriteError}
    (h : append_puffin_metadata_and_rewrite faults dfr pba pbr store = (.error e, store2)) :
    store2.snapshot = store.snapshot := by
  unfold append_puffin_metadata_and_rewrite at h
  split at h
  · injection h with h1 h2
    cases h1
  · split at h
    · injection h with h1 h2
      subst h2
      rfl
    · split at h
      · injection h with h1 h2
        subst h2
        rfl
      · exact flushPhase_error_snapshot h

theorem append_ok_spec {faults : Nat → Bool} {dfr : List String}
    {pba : List (String × List PuffinBlobMetadataProxy)} {pbr : List String}
    {store store2 : Store} {ml : List Manifest}
    (hne : ¬(dfr.isEmpty ∧ pba.isEmpty ∧ pbr.isEmpty))
    (hsnap : store.snapshot = some ml)
    (h : append_puffin_metadata_and_rewrite faults dfr pba pbr store = (.ok (), store2)) :
    ∃ st1 st2 dv,
      scanManifests dfr pbr PassState.init ml = .ok st1 ∧
      processAdditions st1 pba = .ok st2 ∧
      drainDV st2.existing_deletion_vector_entries st2.deletionVectorEntries = .ok dv ∧
      store2.snapshot = some (st2.carryovers ++
        newManifests { st2 with deletionVectorEntries := dv, existing_deletion_vector_entries := [] }) := by
  unfold append_puffin_metadata_and_rewrite at h
  rw [if_neg hne, hsnap] at h
  have hall : (match processAll dfr pba pbr ml with
      | .error err => ((.error err : Except RewriteError Unit), store)
      | .ok st => flushPhase faults st store) = (.ok (), store2) := h
  cases hpa : processAll dfr pba pbr ml with
  | error err =>
    rw [hpa] at hall
    injection hall with h1 h2
    cases h1
  | ok st =>
    rw [hpa] at hall
    unfold processAll at hpa
    split at hpa
    · cases hpa
    · rename_i st1 hscan
      split at hpa
      · cases hpa
      · rename_i st2 hadds
        split at hpa
        · cases hpa
        · rename_i dv hdrain
          simp only [Except.ok.injEq] at hpa
          subst hpa
          refine ⟨st1, st2, dv, hscan, hadds, hdrain, ?_⟩
          exact flushPhase_ok_snapshot hall

/-! ## Output characterization -/

theorem deletionVectorRecords_append (a b : List Manifest) :
    deletionVectorRecords (a ++ b) =
      deletionVectorRecords a ++ deletionVectorRecords b := by
  simp [deletionVectorRecords, List.filter_append]

theorem deletionVectorRecords_of_data {a : List Manifest}
    (h : ∀ m ∈ a, m.content = ManifestContentType.Data) :
    deletionVectorRecords a = [] := by
  unfold deletionVectorRecords
  have hf : a.filter (fun m => decide (m.content = ManifestContentType.Deletes)) = [] := by
    rw [List.filter_eq_nil_iff]
    intro m hm
    rw [h m hm]
    simp
  rw [hf]
  rfl

theorem deletionVectorRecords_newManifests (st : PassState) :
    deletionVectorRecords (newManifests st) = st.deletionVectorEntries.map mkEntry := by
  unfold newManifests deletionVectorRecords
  by_cases h3 : st.deletionVectorEntries.isEmpty
  · rw [List.isEmpty_iff] at h3
    by_cases h1 : st.dataEntries.isEmpty <;> by_cases h2 : st.indexEntries.isEmpty <;>
      simp [h1, h2, h3, List.filter_append]
  · by_cases h1 : st.dataEntries.isEmpty <;> by_cases h2 : st.indexEntries.isEmpty <;>
      simp [h1, h2, h3, List.filter_append]

theorem allEntries_append (a b : List Manifest) :
    allEntries (a ++ b) = allEntries a ++ allEntries b := by
  simp [allEntries]

theorem allEntries_newManifests (st : PassState) :
    allEntries (newManifests st) =
      st.dataEntries.map mkEntry ++ st.indexEntries.map mkEntry ++
        st.deletionVectorEntries.map mkEntry := by
  unfold newManifests allEntries
  by_cases h1 : st.dataEntries.isEmpty <;> by_cases h2 : st.indexEntries.isEmpty <;>
    by_cases h3 : st.deletionVectorEntries.isEmpty <;>
    simp_all [List.isEmpty_iff]

/-! ## Well-formedness of existing manifests (the conditions the scan loop
checks with aborts other than the duplicate-deletion-vector one) -/

/-- A manifest entry passing every scan-loop check except duplicate detection:
a present sequence number, a parquet or puffin format, parquet only inside
data manifests, and a referenced data file on deletes-manifest entries. -/
def WFEntry (content : ManifestContentType) (e : ManifestEntry) : Prop :=
  e.sequence_number ≠ none ∧
  (e.data_file.file_format = DataFileFormat.Parquet ∨
    e.data_file.file_format = DataFileFormat.Puffin) ∧
  (e.data_file.file_format = DataFileFormat.Parquet →
    content = ManifestContentType.Data) ∧
  (¬content = ManifestContentType.Data → e.data_file.referenced_data_file ≠ none)

/-- A manifest that is non-empty and whose entries are all well formed. -/
def WFManifest (m : Manifest) : Prop :=
  m.entries ≠ [] ∧ ∀ e ∈ m.entries, WFEntry m.content e

/-- A manifest list whose manifests are all well formed. -/
def WFList (ml : List Manifest) : Prop := ∀ m ∈ ml, WFManifest m

theorem scanEntry_wf_error {dfr pbr : List String} {content : ManifestContentType}
    {st : PassState} {e : ManifestEntry} {err : RewriteError}
    (hwf : WFEntry content e)
    (h : scanEntry dfr pbr content st e = .error err) :
    ∃ D, err = .duplicateDeletionVector D := by
  unfold scanEntry at h
  split at h
  · rename_i hfmt
    split at h
    · split at h
      · cases h
      · split at h
        · rename_i hseq
          exact absurd hseq hwf.1
        · cases h
    · rename_i hcont
      exact absurd (hwf.2.2.1 hfmt) hcont
  · rename_i hfmt
    split at h
    · split at h
      · split at h
        · cases h
        · split at h
          · rename_i hseq
            exact absurd hseq hwf.1
          · cases h
      · rename_i hcont
        split at h
        · rename_i href
          exact absurd href (hwf.2.2.2 hcont)
        · rename_i ref href
          split at h
          · cases h
          · split at h
            · injection h with h1
              exact ⟨ref, h1.symm⟩
            · cases h
    · rename_i hfmt2
      rcases hwf.2.1 with hp | hp
      · exact absurd hp hfmt
      · exact absurd hp hfmt2

theorem scanEntries_wf_error {dfr pbr : List String} {content : ManifestContentType}
    {st : PassState} {es : List ManifestEntry} {err : RewriteError}
    (hwf : ∀ e ∈ es, WFEntry content e)
    (h : scanEntries dfr pbr content st es = .error err) :
    ∃ D, err = .duplicateDeletionVector D := by
  induction es generalizing st with
  | nil => cases h
  | cons e rest ih =>
    unfold scanEntries at h
    split at h
    · rename_i err2 hstep
      injection h with h1
      subst h1
      exact scanEntry_wf_error (hwf e (List.mem_cons_self _ _)) hstep
    · exact ih (fun e2 he2 => hwf e2 (List.mem_cons_of_mem _ he2)) h

theorem scanManifest_wf_error {dfr pbr : List String} {st : PassState}
    {m : Manifest} {err : RewriteError}
    (hwf : WFManifest m)
    (h : scanManifest dfr pbr st m = .error err) :
    ∃ D, err = .duplicateDeletionVector D := by
  unfold scanManifest at h
  split at h
  · rename_i hnil
    exact absurd hnil hwf.1
  · split at h
    · cases h
    · exact scanEntries_wf_error hwf.2 h

theorem scanManifests_wf_error {dfr pbr : List String} {st : PassState}
    {ml : List Manifest} {err : RewriteError}
    (hwf : WFList ml)
    (h : scanManifests dfr pbr st ml = .error err) :
    ∃ D, err = .duplicateDeletionVector D := by
  induction ml generalizing st with
  | nil => cases h
  | cons m rest ih =>
    unfold scanManifests at h
    split at h
    · rename_i err2 hstep
      injection h with h1
      subst h1
      exact scanManifest_wf_error (hwf m (List.mem_cons_self _ _)) hstep
    · exact ih (fun m2 hm2 => hwf m2 (List.mem_cons_of_mem _ hm2)) h

theorem scanManifests_ok_nonempty {dfr pbr : List String} {st st2 : PassState}
    {ml : List Manifest}
    (h : scanManifests dfr pbr st ml = .ok st2) :
    ∀ m ∈ ml, m.entries ≠ [] := by
  induction ml generalizing st with
  | nil => intro m hm; cases hm
  | cons m0 rest ih =>
    intro m hm
    unfold scanManifests at h
    split at h
    · cases h
    · rename_i st3 hstep
      rcases List.mem_cons.mp hm with hm | hm
      · subst hm
        unfold scanManifest at hstep
        split at hstep
        · cases hstep
        · rename_i e0 es hes
          rw [hes]
          intro hcon
          cases hcon
      · exact ih h m hm

/-! ## Key counting for the duplicate-detection law -/

/-- Multiplicity of a referenced data file among the reconciler map keys. -/
def keyCount (k : String) (m : List (String × ManifestEntry)) : Nat :=
  ((m.map Prod.fst).filter (fun x => decide (x = k))).length

/-- An entry that the scan loop handles in its deletion-vector branch and whose
referenced data file is `D`. -/
abbrev isDVHit (content : ManifestContentType) (D : String) (e : ManifestEntry) : Prop :=
  ¬e.data_file.file_format = DataFileFormat.Parquet ∧
  e.data_file.file_format = DataFileFormat.Puffin ∧
  ¬content = ManifestContentType.Data ∧
  e.data_file.referenced_data_file = some D

/-- Number of deletion-vector-branch entries referencing `D` among `es`. -/
def dvHitCount (content : ManifestContentType) (D : String)
    (es : List ManifestEntry) : Nat :=
  (es.filter (fun e => decide (isDVHit content D e))).length

theorem keyCount_append_singleton {D r : String} {e : ManifestEntry}
    {m : List (String × ManifestEntry)} :
    keyCount D (m ++ [(r, e)]) = keyCount D m + (if r = D then 1 else 0) := by
  unfold keyCount
  rw [List.map_append, List.filter_append, List.length_append]
  congr 1
  by_cases hrD : r = D
  · simp [hrD]
  · simp [hrD]

theorem keyCount_le_one {D : String} {m : List (String × ManifestEntry)}
    (h : (m.map Prod.fst).Nodup) : keyCount D m ≤ 1 :=
  length_filter_le_one_of_nodup h

theorem dvHitCount_cons {content : ManifestContentType} {D : String}
    {e : ManifestEntry} {es : List ManifestEntry} :
    dvHitCount content D (e :: es) =
      (if isDVHit content D e then 1 else 0) + dvHitCount content D es := by
  unfold dvHitCount
  rw [List.filter_cons]
  by_cases he : isDVHit content D e
  · rw [if_pos (decide_eq_true he), if_pos he, List.length_cons]
    omega
  · rw [if_neg (by simp [he]), if_neg he]
    omega

theorem dvHitCount_data {D : String} {es : List ManifestEntry} :
    dvHitCount ManifestContentType.Data D es = 0 := by
  unfold dvHitCount
  rw [List.length_eq_zero, List.filter_eq_nil_iff]
  intro e he
  simp only [decide_eq_true_eq]
  intro hcon
  exact hcon.2.2.1 rfl

theorem scanEntry_keyCount {dfr pbr : List String} {content : ManifestContentType}
    {st st2 : PassState} {e : ManifestEntry} {D : String}
    (hD : D ∉ dfr)
    (h : scanEntry dfr pbr content st e = .ok st2) :
    keyCount D st2.existing_deletion_vector_entries =
      keyCount D st.existing_deletion_vector_entries +
        (if isDVHit content D e then 1 else 0) := by
  unfold scanEntry at h
  split at h
  · rename_i hfmt
    split at h
    · split at h
      · simp only [Except.ok.injEq] at h
        subst h
        rw [if_neg (fun hh => hh.1 hfmt)]
        simp
      · split at h
        · cases h
        · simp only [Except.ok.injEq] at h
          subst h
          rw [if_neg (fun hh => hh.1 hfmt)]
          simp [keyCount]
    · cases h
  · rename_i hfmt
    split at h
    · rename_i hfmt2
      split at h
      · rename_i hcont
        split at h
        · simp only [Except.ok.injEq] at h
          subst h
          rw [if_neg (fun hh => hh.2.2.1 hcont)]
          simp
        · split at h
          · cases h
          · simp only [Except.ok.injEq] at h
            subst h
            rw [if_neg (fun hh => hh.2.2.1 hcont)]
            simp [keyCount]
      · rename_i hcont
        split at h
        · cases h
        · rename_i ref href
          split at h
          · rename_i hrefdfr
            simp only [Except.ok.injEq] at h
            subst h
            have hn : ¬isDVHit content D e := by
              intro hh
              have : ref = D := Option.some_inj.mp (href.symm.trans hh.2.2.2)
              subst this
              exact hD hrefdfr
            rw [if_neg hn]
            simp
          · rename_i hrefdfr
            split at h
            · cases h
            · simp only [Except.ok.injEq] at h
              subst h
              rw [show ({ st with existing_deletion_vector_entries :=
                  st.existing_deletion_vector_entries ++ [(ref, e)] } :
                    PassState).existing_deletion_vector_entries =
                  st.existing_deletion_vector_entries ++ [(ref, e)] from rfl]
              rw [keyCount_append_singleton]
              congr 1
              by_cases hrD : ref = D
              · subst hrD
                rw [if_pos rfl, if_pos ⟨hfmt, hfmt2, hcont, href⟩]
              · rw [if_neg hrD, if_neg]
                intro hh
                exact hrD (Option.some_inj.mp (href.symm.trans hh.2.2.2))
    · cases h

theorem scanEntries_keyCount {dfr pbr : List String} {content : ManifestContentType}
    {st st2 : PassState} {es : List ManifestEntry} {D : String}
    (hD : D ∉ dfr)
    (h : scanEntries dfr pbr content st es = .ok st2) :
    keyCount D st2.existing_deletion_vector_entries =
      keyCount D st.existing_deletion_vector_entries + dvHitCount content D es := by
  induction es generalizing st with
  | nil =>
    unfold scanEntries at h
    simp only [Except.ok.injEq] at h
    subst h
    simp [dvHitCount]
  | cons e rest ih =>
    unfold scanEntries at h
    split at h
    · cases h
    · rename_i st3 hstep
      rw [ih h, scanEntry_keyCount hD hstep, dvHitCount_cons]
      omega

theorem scanManifest_keyCount {dfr pbr : List String} {st st2 : PassState}
    {m : Manifest} {D : String}
    (hD : D ∉ dfr)
    (h : scanManifest dfr pbr st m = .ok st2) :
    keyCount D st2.existing_deletion_vector_entries =
      keyCount D st.existing_deletion_vector_entries +
        dvHitCount m.content D m.entries := by
  unfold scanManifest at h
  split at h
  · cases h
  · split at h
    · rename_i hcond
      simp only [Except.ok.injEq] at h
      subst h
      have hz : dvHitCount m.content D m.entries = 0 := by
        rw [hcond.1]
        exact dvHitCount_data
      rw [hz]
      simp [keyCount]
    · exact scanEntries_keyCount hD h

theorem scanManifests_keyCount {dfr pbr : List String} {st st2 : PassState}
    {ml : List Manifest} {D : String}
    (hD : D ∉ dfr)
    (h : scanManifests dfr pbr st ml = .ok st2) :
    keyCount D st2.existing_deletion_vector_entries =
      keyCount D st.existing_deletion_vector_entries +
        (ml.map (fun m => dvHitCount m.content D m.entries)).sum := by
  induction ml generalizing st with
  | nil =>
    unfold scanManifests at h
    simp only [Except.ok.injEq] at h
    subst h
    simp
  | cons m rest ih =>
    unfold scanManifests at h
    split at h
    · cases h
    · rename_i st3 hstep
      rw [ih h, scanManifest_keyCount hD hstep]
      simp only [List.map_cons, List.sum_cons]
      omega

theorem sum_dvHitCount_eq_countDVRefs {ml : List Manifest} {D : String}
    (hwf : WFList ml) :
    (ml.map (fun m => dvHitCount m.content D m.entries)).sum = countDVRefs ml D := by
  induction ml with
  | nil => rfl
  | cons m rest ih =>
    have hwfm := hwf m (List.mem_cons_self _ _)
    have hrest := ih (fun m2 hm2 => hwf m2 (List.mem_cons_of_mem _ hm2))
    simp only [List.map_cons, List.sum_cons]
    cases hcont : m.content with
    | Data =>
      rw [dvHitCount_data]
      have hskip : countDVRefs (m :: rest) D = countDVRefs rest D := by
        unfold countDVRefs deletionVectorRecords
        rw [List.filter_cons, if_neg (by rw [hcont]; simp)]
      rw [hskip, hrest]
      omega
    | Deletes =>
      have hdel : countDVRefs (m :: rest) D =
          ((m.entries.filter
            (fun e => decide (e.data_file.referenced_data_file = some D))).length) +
            countDVRefs rest D := by
        unfold countDVRefs deletionVectorRecords
        rw [List.filter_cons, if_pos (by rw [hcont]; simp)]
        simp [List.filter_append]
      have hcnt : dvHitCount ManifestContentType.Deletes D m.entries =
          (m.entries.filter
            (fun e => decide (e.data_file.referenced_data_file = some D))).length := by
        unfold dvHitCount
        congr 1
        apply List.filter_congr
        intro e he
        have hwfe := hwfm.2 e he
        rw [hcont] at hwfe
        have hpuf : e.data_file.file_format = DataFileFormat.Puffin := by
          rcases hwfe.2.1 with hp | hp
          · exact absurd (hwfe.2.2.1 hp) (by intro hcon; cases hcon)
          · exact hp
        simp only [decide_eq_decide]
        constructor
        · intro hh
          exact hh.2.2.2
        · intro hh
          refine ⟨?_, hpuf, ?_, hh⟩
          · rw [hpuf]
            intro hcon
            cases hcon
          · intro hcon
            cases hcon
      rw [hdel, hcnt, hrest]

/-! ## Per-blob build results and additions-phase failure -/

/-- Outcome of building the manifest record for one added blob — the only
fallible part of processing it in the additions loop. -/
def blobBuildResult (path : String) (b : PuffinBlobMetadataProxy) :
    Except RewriteError Unit :=
  if b.type = MOONCAKE_HASH_INDEX_V1 then
    match get_data_file_for_file_index path b with
    | .error err => .error err
    | .ok _ => .ok ()
  else
    match get_data_file_for_deletion_vector path b with
    | .error err => .error err
    | .ok _ => .ok ()

theorem addBlob_error_of_buildResult {path : String} {st : PassState}
    {b : PuffinBlobMetadataProxy} {err : RewriteError}
    (h : blobBuildResult path b = .error err) : addBlob path st b = .error err := by
  unfold blobBuildResult at h
  unfold addBlob
  split at h
  · rename_i htype
    rw [if_pos htype]
    split at h
    · rename_i err2 hget
      injection h with h1
      subst h1
      rfl
    · cases h
  · rename_i htype
    rw [if_neg htype]
    split at h
    · rename_i err2 hget
      injection h with h1
      subst h1
      rw [hget]
    · cases h

theorem addBlob_ok_of_buildResult {path : String} {st : PassState}
    {b : PuffinBlobMetadataProxy}
    (h : blobBuildResult path b = .ok ()) : ∃ st2, addBlob path st b = .ok st2 := by
  unfold blobBuildResult at h
  unfold addBlob
  split at h
  · rename_i htype
    rw [if_pos htype]
    split at h
    · cases h
    · rename_i df hget
      exact ⟨_, rfl⟩
  · rename_i htype
    rw [if_neg htype]
    split at h
    · cases h
    · rename_i pr2 hget
      rw [hget]
      exact ⟨_, rfl⟩

theorem addBlobs_ok_of_all {path : String} {st : PassState}
    {bs : List PuffinBlobMetadataProxy}
    (h : ∀ b ∈ bs, blobBuildResult path b = .ok ()) :
    ∃ st2, addBlobs path st bs = .ok st2 := by
  induction bs generalizing st with
  | nil => exact ⟨st, rfl⟩
  | cons b rest ih =>
    obtain ⟨st3, hst3⟩ := addBlob_ok_of_buildResult (h b (List.mem_cons_self _ _))
    unfold addBlobs
    rw [hst3]
    exact ih (fun b2 hb2 => h b2 (List.mem_cons_of_mem _ hb2))

theorem addBlobs_error_malformed {path : String} {st : PassState}
    {bs : List PuffinBlobMetadataProxy}
    (hall : ∀ b ∈ bs, blobBuildResult path b = .ok () ∨
      blobBuildResult path b = .error .malformedBlob)
    (hbad : ∃ b ∈ bs, blobBuildResult path b = .error .malformedBlob) :
    addBlobs path st bs = .error .malformedBlob := by
  induction bs generalizing st with
  | nil =>
    obtain ⟨b, hb, _⟩ := hbad
    cases hb
  | cons b rest ih =>
    unfold addBlobs
    rcases hall b (List.mem_cons_self _ _) with hok | herr
    · obtain ⟨st2, hst2⟩ := addBlob_ok_of_buildResult hok
      rw [hst2]
      apply ih (fun b2 hb2 => hall b2 (List.mem_cons_of_mem _ hb2))
      obtain ⟨b2, hb2, hbr⟩ := hbad
      rcases List.mem_cons.mp hb2 with hb2 | hb2
      · subst hb2
        rw [hok] at hbr
        cases hbr
      · exact ⟨b2, hb2, hbr⟩
    · rw [addBlob_error_of_buildResult herr]

theorem processAdditions_error_malformed {st : PassState}
    {pba : List (String × List PuffinBlobMetadataProxy)}
    (hall : ∀ pr ∈ pba, ∀ b ∈ pr.2, blobBuildResult pr.1 b = .ok () ∨
      blobBuildResult pr.1 b = .error .malformedBlob)
    (hbad : ∃ pr ∈ pba, ∃ b ∈ pr.2, blobBuildResult pr.1 b = .error .malformedBlob) :
    processAdditions st pba = .error .malformedBlob := by
  induction pba generalizing st with
  | nil =>
    obtain ⟨pr, hpr, _⟩ := hbad
    cases hpr
  | cons pr0 rest ih =>
    obtain ⟨path, bs⟩ := pr0
    unfold processAdditions
    by_cases hbad0 : ∃ b ∈ bs, blobBuildResult path b = .error .malformedBlob
    · rw [addBlobs_error_malformed
        (fun b hb => hall (path, bs) (List.mem_cons_self _ _) b hb) hbad0]
    · have hok : ∀ b ∈ bs, blobBuildResult path b = .ok () := by
        intro b hb
        rcases hall (path, bs) (List.mem_cons_self _ _) b hb with h | h
        · exact h
        · exact absurd ⟨b, hb, h⟩ hbad0
      obtain ⟨st2, hst2⟩ := addBlobs_ok_of_all hok
      rw [hst2]
      apply ih (fun pr hpr b hb => hall pr (List.mem_cons_of_mem _ hpr) b hb)
      obtain ⟨pr, hpr, b, hb, hbr⟩ := hbad
      rcases List.mem_cons.mp hpr with hpr | hpr
      · subst hpr
        exact absurd ⟨b, hb, hbr⟩ hbad0
      · exact ⟨pr, hpr, b, hb, hbr⟩

theorem get_dv_malformed {path : String} {b : PuffinBlobMetadataProxy}
    (htype : b.type = DELETION_VECTOR_V1)
    (hbad : lookupKey DELETION_VECTOR_REFERENCED_DATA_FILE b.properties = none ∨
      lookupKey DELETION_VECTOR_CADINALITY b.properties = none ∨
      ∃ s, lookupKey DELETION_VECTOR_CADINALITY b.properties = some s ∧
        parseU64 s = none) :
    get_data_file_for_deletion_vector path b = .error .malformedBlob := by
  unfold get_data_file_for_deletion_vector
  rw [if_pos htype]
  split
  · rfl
  · rename_i rv hr
    split
    · rfl
    · rename_i s2 hc
      split
      · rfl
      · rename_i n hpp
        exfalso
        rcases hbad with h1 | h2 | ⟨s, hs, hp⟩
        · rw [hr] at h1
          cases h1
        · rw [hc] at h2
          cases h2
        · rw [hc] at hs
          have hss : s2 = s := Option.some_inj.mp hs
          subst hss
          rw [hp] at hpp
          cases hpp

theorem blobBuildResult_malformed_dv {path : String} {b : PuffinBlobMetadataProxy}
    (htype : b.type = DELETION_VECTOR_V1)
    (hbad : lookupKey DELETION_VECTOR_REFERENCED_DATA_FILE b.properties = none ∨
      lookupKey DELETION_VECTOR_CADINALITY b.properties = none ∨
      ∃ s, lookupKey DELETION_VECTOR_CADINALITY b.properties = some s ∧
        parseU64 s = none) :
    blobBuildResult path b = .error .malformedBlob := by
  have hne : ¬b.type = MOONCAKE_HASH_INDEX_V1 := by
    rw [htype]
    intro hcon
    exact absurd hcon (by decide)
  unfold blobBuildResult
  rw [if_neg hne, get_dv_malformed htype hbad]

/-! ## Dispatch of pure-phase failures through the top level -/

theorem append_processAll_error {faults : Nat → Bool} {dfr : List String}
    {pba : List (String × List PuffinBlobMetadataProxy)} {pbr : List String}
    {store : Store} {ml : List Manifest} {err : RewriteError}
    (hne : ¬(dfr.isEmpty ∧ pba.isEmpty ∧ pbr.isEmpty))
    (hsnap : store.snapshot = some ml)
    (hpa : processAll dfr pba pbr ml = .error err) :
    append_puffin_metadata_and_rewrite faults dfr pba pbr store = (.error err, store) := by
  have hred : append_puffin_metadata_and_rewrite faults dfr pba pbr store =
      (match processAll dfr pba pbr ml with
        | .error err => ((.error err : Except RewriteError Unit), store)
        | .ok st => flushPhase faults st store) := by
    unfold append_puffin_metadata_and_rewrite
    rw [if_neg hne, hsnap]
  rw [hred, hpa]

theorem processAll_scan_error {dfr : List String}
    {pba : List (String × List PuffinBlobMetadataProxy)} {pbr : List String}
    {ml : List Manifest} {err : RewriteError}
    (h : scanManifests dfr pbr PassState.init ml = .error err) :
    processAll dfr pba pbr ml = .error err := by
  unfold processAll
  rw [h]

theorem processAll_additions_error {dfr : List String}
    {pba : List (String × List PuffinBlobMetadataProxy)} {pbr : List String}
    {ml : List Manifest} {st1 : PassState} {err : RewriteError}
    (hscan : scanManifests dfr pbr PassState.init ml = .ok st1)
    (h : processAdditions st1 pba = .error err) :
    processAll dfr pba pbr ml = .error err := by
  simp only [processAll, hscan, h]

/-! ## The blob metadata extractor (source lines 30-58 and 196-208) -/

/-- The external archive-blob writer (`iceberg::puffin::PuffinWriter`), modelled
by its fields under the memory-layout equivalence the source relies on;
`writer` stands for the opaque boxed file-write handle. -/
structure PuffinWriter where
  writer : Nat
  is_header_written : Bool
  num_bytes_written : Nat
  written_blobs_metadata : List PuffinBlobMetadataProxy
  properties : List (String × String)
  footer_compression_codec : CompressionCodec
  flags : List PuffinFlagProxy
  deriving DecidableEq, Inhabited

/-- Mirror of `PuffinWriterProxy` (source lines 50-58). -/
structure PuffinWriterProxy where
  writer : Nat
  is_header_written : Bool
  num_bytes_written : Nat
  written_blobs_metadata : List PuffinBlobMetadataProxy
  properties : List (String × String)
  footer_compression_codec : CompressionCodec
  flags : List PuffinFlagProxy
  deriving DecidableEq, Inhabited

/-- The `transmute::<PuffinWriter, PuffinWriterProxy>` reinterpretation: under
the layout equivalence it is the field-preserving bijection. -/
def transmute_writer_to_proxy (w : PuffinWriter) : PuffinWriterProxy :=
  ⟨w.writer, w.is_header_written, w.num_bytes_written, w.written_blobs_metadata,
   w.properties, w.footer_compression_codec, w.flags⟩

/-- The inverse `transmute::<PuffinWriterProxy, PuffinWriter>` reinterpretation. -/
def transmute_proxy_to_writer (p : PuffinWriterProxy) : PuffinWriter :=
  ⟨p.writer, p.is_header_written, p.num_bytes_written, p.written_blobs_metadata,
   p.properties, p.footer_compression_codec, p.flags⟩

/-- Mirror of `get_puffin_metadata_and_close` (source lines 198-208),
parameterized by the external writer's `close` implementation: reinterpret the
writer as the proxy, copy the accumulated blob metadata, reinterpret back and
close. -/
def get_puffin_metadata_and_close
    (closeImpl : PuffinWriter → Except RewriteError Unit)
    (puffin_writer : PuffinWriter) :
    Except RewriteError (List PuffinBlobMetadataProxy) :=
  let puffin_writer_proxy := transmute_writer_to_proxy puffin_writer
  let puffin_metadata := puffin_writer_proxy.written_blobs_metadata
  let puffin_writer2 := transmute_proxy_to_writer puffin_writer_proxy
  match closeImpl puffin_writer2 with
  | .error err => .error err
  | .ok _ => .ok puffin_metadata

/-! ## Claim theorems -/

/-- Fault-free storage oracle used by concrete witnesses. -/
def noFaults : Nat → Bool := fun _ => false

/-- Claim C8 (confirmed): a rewrite invocation whose three input sets/maps are
all empty takes the fast exit: it returns success, performs no storage writes,
and leaves the committed manifest list exactly as it was — in particular
content-equivalent (same entries, same order) to the original. -/
theorem C8_empty_inputs_idempotent (faults : Nat → Bool) (store : Store) :
    append_puffin_metadata_and_rewrite faults [] [] [] store = (.ok (), store) := rfl

/-- Claim C4 (confirmed): a rewrite invocation that fails at any step, with any
error, leaves the snapshot's committed manifest-list content unchanged — the
pass aborts without publishing any partial manifest list (manifest file objects
already written remain only as unreferenced orphans in the write log). -/
theorem C4_failed_rewrite_preserves_snapshot (faults : Nat → Bool)
    (data_files_to_remove : List String)
    (puffin_blobs_to_add : List (String × List PuffinBlobMetadataProxy))
    (puffin_blobs_to_remove : List String) (store : Store) (e : RewriteError)
    (herr : (append_puffin_metadata_and_rewrite faults data_files_to_remove
      puffin_blobs_to_add puffin_blobs_to_remove store).1 = .error e) :
    (append_puffin_metadata_and_rewrite faults data_files_to_remove
      puffin_blobs_to_add puffin_blobs_to_remove store).2.snapshot =
      store.snapshot := by
  have h2 : append_puffin_metadata_and_rewrite faults data_files_to_remove
      puffin_blobs_to_add puffin_blobs_to_remove store =
      (.error e, (append_puffin_metadata_and_rewrite faults data_files_to_remove
        puffin_blobs_to_add puffin_blobs_to_remove store).2) := by
    rw [← herr]
  exact append_error_store h2

/-- Witness for C4: a rewrite with a non-empty removal set on a table with no
current snapshot fails with `noCurrentSnapshot` and changes nothing. -/
theorem C4_failed_rewrite_preserves_snapshot_witness :
    (append_puffin_metadata_and_rewrite noFaults ["a.parquet"] [] []
      ⟨none, []⟩).1 = .error .noCurrentSnapshot ∧
    (append_puffin_metadata_and_rewrite noFaults ["a.parquet"] [] []
      ⟨none, []⟩).2.snapshot = (⟨none, []⟩ : Store).snapshot :=
  ⟨by decide,
   C4_failed_rewrite_preserves_snapshot noFaults ["a.parquet"] [] [] ⟨none, []⟩
     .noCurrentSnapshot (by decide)⟩

/-- Claim C9 (confirmed): extracting the accumulated blob metadata from an
in-progress archive-blob writer returns the full ordered list accumulated so
far, the reinterpretation round-trips to the identical writer, and the
subsequent finalization behaves exactly as closing the original writer would
(same success and same error outcomes). -/
theorem C9_metadata_extraction_transparent
    (closeImpl : PuffinWriter → Except RewriteError Unit) (w : PuffinWriter) :
    transmute_proxy_to_writer (transmute_writer_to_proxy w) = w ∧
    get_puffin_metadata_and_close closeImpl w =
      (closeImpl w).map (fun _ => w.written_blobs_metadata) := by
  refine ⟨rfl, ?_⟩
  unfold get_puffin_metadata_and_close
  dsimp only
  have he : transmute_proxy_to_writer (transmute_writer_to_proxy w) = w := rfl
  rw [he]
  cases hc : closeImpl w <;> simp [Except.map, transmute_writer_to_proxy]

/-- Claim C10 (confirmed): for every invocation that proceeds past the fast
exit, an empty manifest file in the current manifest list aborts the whole
pass (the scan's assertion); the rewrite can never return success on it. -/
theorem C10_empty_manifest_aborts (faults : Nat → Bool)
    (data_files_to_remove : List String)
    (puffin_blobs_to_add : List (String × List PuffinBlobMetadataProxy))
    (puffin_blobs_to_remove : List String) (store : Store)
    (ml : List Manifest) (m : Manifest)
    (hne : ¬(data_files_to_remove.isEmpty ∧ puffin_blobs_to_add.isEmpty ∧
      puffin_blobs_to_remove.isEmpty))
    (hsnap : store.snapshot = some ml)
    (hm : m ∈ ml) (hempty : m.entries = []) :
    ∃ e, (append_puffin_metadata_and_rewrite faults data_files_to_remove
      puffin_blobs_to_add puffin_blobs_to_remove store).1 = .error e := by
  cases hres : (append_puffin_metadata_and_rewrite faults data_files_to_remove
      puffin_blobs_to_add puffin_blobs_to_remove store).1 with
  | error e => exact ⟨e, rfl⟩
  | ok u =>
    exfalso
    cases u
    obtain ⟨st1, st2, dv, hscan, _, _, _⟩ := append_ok_spec hne hsnap (by rw [← hres])
    exact scanManifests_ok_nonempty hscan m hm hempty

/-- Witness for C10: a list holding one empty data manifest makes the pass
fail (concretely with the empty-manifest abort). -/
theorem C10_empty_manifest_aborts_witness :
    (∃ e, (append_puffin_metadata_and_rewrite noFaults ["x"] [] []
      ⟨some [⟨ManifestContentType.Data, []⟩], []⟩).1 = .error e) ∧
    (append_puffin_metadata_and_rewrite noFaults ["x"] [] []
      ⟨some [⟨ManifestContentType.Data, []⟩], []⟩).1 = .error .emptyManifest :=
  ⟨C10_empty_manifest_aborts noFaults ["x"] [] [] ⟨some [⟨ManifestContentType.Data, []⟩], []⟩
      [⟨ManifestContentType.Data, []⟩] ⟨ManifestContentType.Data, []⟩
      (by decide) rfl (by simp) rfl,
   by decide⟩

/-- A well-formed deletion-vector blob whose byte offset is 2^63 (a valid u64
value). -/
def c7Blob : PuffinBlobMetadataProxy :=
  { type := DELETION_VECTOR_V1
    fields := []
    snapshot_id := 1
    sequence_number := 1
    offset := 9223372036854775808
    length := 64
    compression_codec := CompressionCodec.None
    properties := [(DELETION_VECTOR_REFERENCED_DATA_FILE, "d.parquet"),
                   (DELETION_VECTOR_CADINALITY, "10")] }

/-- Counterexample to claim C7 as stated: for the well-formed deletion-vector
blob `c7Blob` with byte offset 2^63 the built record's content offset is the
wrapped value -2^63, which is not equal to the blob's byte offset. -/
theorem C7_content_offset_cast_cex :
    (get_data_file_for_deletion_vector "p.puffin" c7Blob).map
        (fun pr => pr.2.content_offset) = .ok (some (-9223372036854775808)) ∧
    (c7Blob.offset : Int) = 9223372036854775808 ∧
    ((-9223372036854775808 : Int)) ≠ ((9223372036854775808 : Int)) := by
  refine ⟨by decide, by decide, by decide⟩

/-- Claim C7 (amended: content offset and length equal the blob's byte
offset/length provided both are below 2^63; the Rust `u64 as i64` cast wraps
larger values): the record built for a well-formed deletion-vector blob has
position-deletes content, the archive file path, puffin format, empty
partition, record count = the parsed cardinality property, file size 0 (the
documented placeholder), all per-column statistics maps empty, referenced data
file = the referenced-data-file property, and content offset/length equal to
the blob's byte offset/length; file-index records also carry file size 0. -/
theorem C7_deletion_vector_record_fields (path : String)
    (b : PuffinBlobMetadataProxy) (r s : String) (n : Nat)
    (htype : b.type = DELETION_VECTOR_V1)
    (href : lookupKey DELETION_VECTOR_REFERENCED_DATA_FILE b.properties = some r)
    (hcard : lookupKey DELETION_VECTOR_CADINALITY b.properties = some s)
    (hparse : parseU64 s = some n)
    (hoff : b.offset < I64_SIZE) (hlen : b.length < I64_SIZE) :
    get_data_file_for_deletion_vector path b = .ok (r,
      { content := DataContentType.PositionDeletes
        file_path := path
        file_format := DataFileFormat.Puffin
        partition := Struct.empty
        record_count := n
        file_size_in_bytes := 0
        column_sizes := []
        value_counts := []
        null_value_counts := []
        nan_value_counts := []
        lower_bounds := []
        upper_bounds := []
        key_metadata := none
        split_offsets := []
        equality_ids := []
        sort_order_id := none
        first_row_id := none
        partition_spec_id := 0
        referenced_data_file := some r
        content_offset := some (b.offset : Int)
        content_size_in_bytes := some (b.length : Int) }) ∧
    (∀ path2 b2 df, get_data_file_for_file_index path2 b2 = .ok df →
      df.file_size_in_bytes = 0) := by
  constructor
  · unfold get_data_file_for_deletion_vector
    rw [if_pos htype]
    simp only [href, hcard, hparse]
    simp [u64AsI64, hoff, hlen]
  · intro path2 b2 df h
    exact (get_idx_ok_fields h).2.2.2.2.2

/-- Witness for the amended C7: a concrete blob at offset 128, length 64,
cardinality 10 referencing `b.parquet`. -/
theorem C7_deletion_vector_record_fields_witness :
    get_data_file_for_deletion_vector "dv1.puffin"
      { type := DELETION_VECTOR_V1
        fields := []
        snapshot_id := 1
        sequence_number := 5
        offset := 128
        length := 64
        compression_codec := CompressionCodec.None
        properties := [(DELETION_VECTOR_REFERENCED_DATA_FILE, "b.parquet"),
                       (DELETION_VECTOR_CADINALITY, "10")] } = .ok ("b.parquet",
      { content := DataContentType.PositionDeletes
        file_path := "dv1.puffin"
        file_format := DataFileFormat.Puffin
        partition := Struct.empty
        record_count := 10
        file_size_in_bytes := 0
        column_sizes := []
        value_counts := []
        null_value_counts := []
        nan_value_counts := []
        lower_bounds := []
        upper_bounds := []
        key_metadata := none
        split_offsets := []
        equality_ids := []
        sort_order_id := none
        first_row_id := none
        partition_spec_id := 0
        referenced_data_file := some "b.parquet"
        content_offset := some 128
        content_size_in_bytes := some 64 }) :=
  (C7_deletion_vector_record_fields "dv1.puffin" _ "b.parquet" "10" 10
    rfl (by decide) (by decide) (by decide) (by decide) (by decide)).1

/-- Test fixture: a deletion-vector puffin blob referencing `ref` with
cardinality property `card` and sequence number `seq`. -/
def mkDVBlob (ref card : String) (seq : Int) : PuffinBlobMetadataProxy :=
  { type := DELETION_VECTOR_V1
    fields := []
    snapshot_id := 1
    sequence_number := seq
    offset := 128
    length := 64
    compression_codec := CompressionCodec.None
    properties := [(DELETION_VECTOR_REFERENCED_DATA_FILE, ref),
                   (DELETION_VECTOR_CADINALITY, card)] }

/-- Test fixture: a deletion-vector manifest file record at `path` referencing
`ref`. -/
def mkDVRecord (path ref : String) : DataFile :=
  { content := DataContentType.PositionDeletes
    file_path := path
    file_format := DataFileFormat.Puffin
    partition := Struct.empty
    record_count := 1
    file_size_in_bytes := 0
    column_sizes := []
    value_counts := []
    null_value_counts := []
    nan_value_counts := []
    lower_bounds := []
    upper_bounds := []
    key_metadata := none
    split_offsets := []
    equality_ids := []
    sort_order_id := none
    first_row_id := none
    partition_spec_id := 0
    referenced_data_file := some ref
    content_offset := some 0
    content_size_in_bytes := some 0 }

/-- Test fixture: a manifest list holding one deletes manifest with two
deletion-vector entries referencing the same data file. -/
def c5List : List Manifest :=
  [⟨ManifestContentType.Deletes,
    [⟨mkDVRecord "p1.puffin" "d.parquet", some 1⟩,
     ⟨mkDVRecord "p2.puffin" "d.parquet", some 2⟩]⟩]

/-- Counterexample to claim C5 as stated: with two existing deletion-vector
entries referencing the same data file `d.parquet` but all three caller inputs
empty, the rewrite takes the fast exit and returns success — the duplicate is
never detected. -/
theorem C5_duplicate_fast_exit_cex :
    countDVRefs c5List "d.parquet" = 2 ∧
    append_puffin_metadata_and_rewrite noFaults [] [] [] ⟨some c5List, []⟩ =
      (.ok (), ⟨some c5List, []⟩) :=
  ⟨by decide, rfl⟩

/-- Claim C5 (amended: requires at least one of the three inputs non-empty so
the fast exit is not taken, and a manifest list that is otherwise well formed):
two existing deletion-vector entries referencing the same data-file path, that
path not being in the removal set, make the rewrite fail with the
`duplicateDeletionVector` error rather than silently keeping one of them. -/
theorem C5_duplicate_detection (faults : Nat → Bool)
    (data_files_to_remove : List String)
    (puffin_blobs_to_add : List (String × List PuffinBlobMetadataProxy))
    (puffin_blobs_to_remove : List String) (store : Store)
    (ml : List Manifest) (D : String)
    (hne : ¬(data_files_to_remove.isEmpty ∧ puffin_blobs_to_add.isEmpty ∧
      puffin_blobs_to_remove.isEmpty))
    (hsnap : store.snapshot = some ml)
    (hwf : WFList ml)
    (hD : D ∉ data_files_to_remove)
    (hdup : 2 ≤ countDVRefs ml D) :
    ∃ D2, (append_puffin_metadata_and_rewrite faults data_files_to_remove
      puffin_blobs_to_add puffin_blobs_to_remove store).1 =
        .error (.duplicateDeletionVector D2) := by
  cases hscan : scanManifests data_files_to_remove puffin_blobs_to_remove
      PassState.init ml with
  | error err =>
    obtain ⟨D2, hD2⟩ := scanManifests_wf_error hwf hscan
    subst hD2
    refine ⟨D2, ?_⟩
    rw [append_processAll_error hne hsnap (processAll_scan_error hscan)]
  | ok st1 =>
    exfalso
    have hcount := scanManifests_keyCount hD hscan
    have hinv := scanManifests_inv (scanInv_init data_files_to_remove) hscan
    have hle := @keyCount_le_one D st1.existing_deletion_vector_entries hinv.1.nodupKeys
    rw [sum_dvHitCount_eq_countDVRefs hwf] at hcount
    have hz : keyCount D PassState.init.existing_deletion_vector_entries = 0 := rfl
    rw [hz] at hcount
    omega

/-- Witness for the amended C5: the duplicate list of `c5List` with a non-empty
blob-removal input fails with the duplicate error. -/
theorem C5_duplicate_detection_witness :
    ∃ D2, (append_puffin_metadata_and_rewrite noFaults [] [] ["x"]
      ⟨some c5List, []⟩).1 = .error (.duplicateDeletionVector D2) :=
  C5_duplicate_detection noFaults [] [] ["x"] ⟨some c5List, []⟩ c5List "d.parquet"
    (by decide) rfl (by unfold WFList WFManifest WFEntry; decide) (by decide) (by decide)

/-- Test fixture: a deletion-vector blob whose property map lacks the
referenced-data-file key. -/
def c6Blob : PuffinBlobMetadataProxy :=
  { type := DELETION_VECTOR_V1
    fields := []
    snapshot_id := 1
    sequence_number := 1
    offset := 0
    length := 0
    compression_codec := CompressionCodec.None
    properties := [(DELETION_VECTOR_CADINALITY, "10")] }

/-- Claim C6 (confirmed): in a rewrite whose scan of the existing manifests
succeeds and whose added blobs each either build successfully or abort as
malformed, an added deletion-vector-typed blob lacking the referenced-data-file
property (or the cardinality property, or with an unparseable cardinality)
makes the whole pass fail with `malformedBlob`, leaving the committed manifest
list — indeed the whole store — untouched. -/
theorem C6_malformed_blob_aborts (faults : Nat → Bool)
    (data_files_to_remove : List String)
    (puffin_blobs_to_add : List (String × List PuffinBlobMetadataProxy))
    (puffin_blobs_to_remove : List String) (store : Store)
    (ml : List Manifest) (st1 : PassState)
    (hsnap : store.snapshot = some ml)
    (hscan : scanManifests data_files_to_remove puffin_blobs_to_remove
      PassState.init ml = .ok st1)
    (hall : ∀ pr ∈ puffin_blobs_to_add, ∀ b ∈ pr.2,
      blobBuildResult pr.1 b = .ok () ∨ blobBuildResult pr.1 b = .error .malformedBlob)
    (hbad : ∃ pr ∈ puffin_blobs_to_add, ∃ b ∈ pr.2,
      b.type = DELETION_VECTOR_V1 ∧
      (lookupKey DELETION_VECTOR_REFERENCED_DATA_FILE b.properties = none ∨
       lookupKey DELETION_VECTOR_CADINALITY b.properties = none ∨
       ∃ s, lookupKey DELETION_VECTOR_CADINALITY b.properties = some s ∧
         parseU64 s = none)) :
    append_puffin_metadata_and_rewrite faults data_files_to_remove
      puffin_blobs_to_add puffin_blobs_to_remove store =
      (.error .malformedBlob, store) := by
  obtain ⟨pr, hpr, b, hb, htype, hbad2⟩ := hbad
  have hne : ¬(data_files_to_remove.isEmpty ∧ puffin_blobs_to_add.isEmpty ∧
      puffin_blobs_to_remove.isEmpty) := by
    intro hcon
    have hp := hcon.2.1
    rw [List.isEmpty_iff] at hp
    subst hp
    cases hpr
  have hbad3 : ∃ pr ∈ puffin_blobs_to_add, ∃ b ∈ pr.2,
      blobBuildResult pr.1 b = .error .malformedBlob :=
    ⟨pr, hpr, b, hb, blobBuildResult_malformed_dv htype hbad2⟩
  exact append_processAll_error hne hsnap
    (processAll_additions_error hscan (processAdditions_error_malformed hall hbad3))

/-- Witness for C6: one added deletion-vector blob without a referenced file
aborts a rewrite over an empty manifest list with `malformedBlob` and leaves
the store untouched. -/
theorem C6_malformed_blob_aborts_witness :
    append_puffin_metadata_and_rewrite noFaults [] [("p.puffin", [c6Blob])] []
      ⟨some [], []⟩ = (.error .malformedBlob, ⟨some [], []⟩) :=
  C6_malformed_blob_aborts noFaults [] [("p.puffin", [c6Blob])] [] ⟨some [], []⟩
    [] PassState.init rfl rfl
    (by
      intro pr hpr b hb
      rw [List.mem_singleton] at hpr
      subst hpr
      rw [List.mem_singleton] at hb
      subst hb
      right
      decide)
    ⟨("p.puffin", [c6Blob]), List.mem_singleton.mpr rfl, c6Blob,
      List.mem_singleton.mpr rfl, rfl, Or.inl (by decide)⟩

/-! ## Output-shape plumbing for the success-path claims -/

theorem map_ref_eq_map_keys {m : List (String × ManifestEntry)}
    (h : ∀ q ∈ m, q.2.data_file.referenced_data_file = some q.1) :
    m.map (fun q => q.2.data_file.referenced_data_file) =
      (m.map Prod.fst).map some := by
  induction m with
  | nil => rfl
  | cons q rest ih =>
    simp only [List.map_cons]
    rw [h q (List.mem_cons_self _ _),
      ih (fun q2 hq2 => h q2 (List.mem_cons_of_mem _ hq2))]

theorem length_filter_mkEntry_eq {dv : List (DataFile × Int)} {p : String} :
    ((dv.map mkEntry).filter
      (fun e => decide (e.data_file.referenced_data_file = some p))).length =
    ((dvRefs dv).filter (fun o => decide (o = some p))).length := by
  rw [List.filter_map, List.length_map]
  unfold dvRefs
  rw [List.filter_map, List.length_map]
  rfl

theorem addedDVRefs_of_occ {pba : List (String × List PuffinBlobMetadataProxy)}
    {D : String} {oc : String × PuffinBlobMetadataProxy}
    (h : oc ∈ dvOccurrencesFor pba D) : D ∈ addedDVRefs pba := by
  unfold dvOccurrencesFor at h
  rw [List.mem_flatten] at h
  obtain ⟨l, hl, hoc⟩ := h
  rw [List.mem_map] at hl
  obtain ⟨pr, hpr, hleq⟩ := hl
  subst hleq
  rw [List.mem_map] at hoc
  obtain ⟨b2, hb2, _⟩ := hoc
  rw [List.mem_filter] at hb2
  unfold addedDVRefs
  rw [List.mem_flatten]
  refine ⟨pr.2.filterMap blobDVRef, List.mem_map.mpr ⟨pr, hpr, rfl⟩, ?_⟩
  rw [List.mem_filterMap]
  exact ⟨b2, hb2.1, of_decide_eq_true hb2.2⟩

theorem append_ok_output {faults : Nat → Bool} {dfr : List String}
    {pba : List (String × List PuffinBlobMetadataProxy)} {pbr : List String}
    {store store2 : Store} {ml : List Manifest}
    (hne : ¬(dfr.isEmpty ∧ pba.isEmpty ∧ pbr.isEmpty))
    (hsnap : store.snapshot = some ml)
    (hok : append_puffin_metadata_and_rewrite faults dfr pba pbr store =
      (.ok (), store2)) :
    ∃ st1 st2 dv,
      scanManifests dfr pbr PassState.init ml = .ok st1 ∧
      processAdditions st1 pba = .ok st2 ∧
      drainDV st2.existing_deletion_vector_entries st2.deletionVectorEntries = .ok dv ∧
      ScanInv dfr st2 ∧
      st1.deletionVectorEntries = [] ∧
      store2.snapshot = some (st2.carryovers ++ newManifests
        { st2 with deletionVectorEntries := dv,
                   existing_deletion_vector_entries := [] }) ∧
      deletionVectorRecords (st2.carryovers ++ newManifests
        { st2 with deletionVectorEntries := dv,
                   existing_deletion_vector_entries := [] }) = dv.map mkEntry ∧
      allEntries (st2.carryovers ++ newManifests
        { st2 with deletionVectorEntries := dv,
                   existing_deletion_vector_entries := [] }) =
        allEntries st2.carryovers ++ (st2.dataEntries.map mkEntry ++
          st2.indexEntries.map mkEntry ++ dv.map mkEntry) := by
  obtain ⟨st1, st2, dv, hscan, hadds, hdrain, hsn⟩ := append_ok_spec hne hsnap hok
  have hinv1 := scanManifests_inv (scanInv_init dfr) hscan
  have hinv2 := (processAdditions_ok_spec hinv1.1 hadds).1
  refine ⟨st1, st2, dv, hscan, hadds, hdrain, hinv2, hinv1.2, hsn, ?_, ?_⟩
  · rw [deletionVectorRecords_append,
      deletionVectorRecords_of_data hinv2.carryData,
      deletionVectorRecords_newManifests]
    rfl
  · rw [allEntries_append, allEntries_newManifests]

/-- Counterexample to claim C1 as stated: a successful rewrite whose
blobs-to-add map holds two deletion-vector blobs referencing the same data
file `d.parquet`, itself in the removal set, emits a manifest list with two
deletion-vector entries for that path — violating both the at-most-one part
and the not-removed part of the invariant. -/
theorem C1_rewrite_invariant_cex :
    (append_puffin_metadata_and_rewrite noFaults ["d.parquet"]
      [("p.puffin", [mkDVBlob "d.parquet" "1" 1, mkDVBlob "d.parquet" "2" 2])] []
      ⟨some [], []⟩).1 = .ok () ∧
    countDVRefs ((append_puffin_metadata_and_rewrite noFaults ["d.parquet"]
      [("p.puffin", [mkDVBlob "d.parquet" "1" 1, mkDVBlob "d.parquet" "2" 2])] []
      ⟨some [], []⟩).2.snapshot.getD []) "d.parquet" = 2 ∧
    "d.parquet" ∈ ["d.parquet"] :=
  ⟨by decide, by decide, by decide⟩

/-- Claim C1 (amended: requires the added deletion-vector blobs to reference
pairwise-distinct data files, none of which is in the removal set — the
additions loop neither deduplicates newly added deletion vectors nor filters
them against the removal set): after every successful rewrite past the fast
exit, the emitted manifest list has at most one deletion-vector entry per
referenced data-file path, and no surviving deletion-vector entry references a
file in the removal set. -/
theorem C1_rewrite_invariant (faults : Nat → Bool)
    (data_files_to_remove : List String)
    (puffin_blobs_to_add : List (String × List PuffinBlobMetadataProxy))
    (puffin_blobs_to_remove : List String) (store store2 : Store)
    (ml : List Manifest)
    (hne : ¬(data_files_to_remove.isEmpty ∧ puffin_blobs_to_add.isEmpty ∧
      puffin_blobs_to_remove.isEmpty))
    (hsnap : store.snapshot = some ml)
    (hnodup : (addedDVRefs puffin_blobs_to_add).Nodup)
    (hnotrem : ∀ r ∈ addedDVRefs puffin_blobs_to_add, r ∉ data_files_to_remove)
    (hok : append_puffin_metadata_and_rewrite faults data_files_to_remove
      puffin_blobs_to_add puffin_blobs_to_remove store = (.ok (), store2)) :
    ∀ newList, store2.snapshot = some newList →
      (∀ p, countDVRefs newList p ≤ 1) ∧
      (∀ e ∈ deletionVectorRecords newList, ∀ p,
        e.data_file.referenced_data_file = some p → p ∉ data_files_to_remove) := by
  obtain ⟨st1, st2, dv, hscan, hadds, hdrain, hinv2, hdv1, hsn, hdvrec, _⟩ :=
    append_ok_output hne hsnap hok
  have hinv1 := scanManifests_inv (scanInv_init data_files_to_remove) hscan
  obtain ⟨_, _, _, hkeys2, _, hrefs2, _⟩ := processAdditions_ok_spec hinv1.1 hadds
  obtain ⟨hdrefs, _, _⟩ := drainDV_ok_spec hdrain
  rw [hdv1] at hrefs2
  rw [show dvRefs ([] : List (DataFile × Int)) = [] from rfl, List.nil_append] at hrefs2
  have hmapkeys : st2.existing_deletion_vector_entries.map
      (fun q => q.2.data_file.referenced_data_file) =
        (st2.existing_deletion_vector_entries.map Prod.fst).map some :=
    map_ref_eq_map_keys (fun q hq => (hinv2.mapVal q hq).1)
  have hrefs : dvRefs dv = (addedDVRefs puffin_blobs_to_add ++
      st2.existing_deletion_vector_entries.map Prod.fst).map some := by
    rw [hdrefs, hrefs2, hmapkeys, List.map_append]
  have hLnodup : (addedDVRefs puffin_blobs_to_add ++
      st2.existing_deletion_vector_entries.map Prod.fst).Nodup := by
    rw [List.nodup_append]
    exact ⟨hnodup, hinv2.nodupKeys, fun a ha ha2 => (hkeys2 a ha2).2 ha⟩
  have hLrem : ∀ x ∈ addedDVRefs puffin_blobs_to_add ++
      st2.existing_deletion_vector_entries.map Prod.fst,
      x ∉ data_files_to_remove := by
    intro x hx
    rcases List.mem_append.mp hx with hx | hx
    · exact hnotrem x hx
    · exact hinv2.keysNotRemoved x hx
  intro newList hnew
  rw [hsn] at hnew
  injection hnew with hnew
  subst hnew
  constructor
  · intro p
    unfold countDVRefs
    rw [hdvrec, length_filter_mkEntry_eq, hrefs, length_filter_map_some]
    exact length_filter_le_one_of_nodup hLnodup
  · intro e he p hep
    rw [hdvrec] at he
    obtain ⟨q, hq, hqe⟩ := List.mem_map.mp he
    subst hqe
    have hmem : some p ∈ dvRefs dv := by
      unfold dvRefs
      exact List.mem_map.mpr ⟨q, hq, hep⟩
    rw [hrefs] at hmem
    obtain ⟨x, hx, hxp⟩ := List.mem_map.mp hmem
    have hxpe : x = p := Option.some_inj.mp hxp
    subst hxpe
    exact hLrem x hx

/-- Test fixture: a primary-data (parquet) manifest file record. -/
def mkDataRecord (path : String) : DataFile :=
  { content := DataContentType.Data
    file_path := path
    file_format := DataFileFormat.Parquet
    partition := Struct.empty
    record_count := 100
    file_size_in_bytes := 1024
    column_sizes := []
    value_counts := []
    null_value_counts := []
    nan_value_counts := []
    lower_bounds := []
    upper_bounds := []
    key_metadata := none
    split_offsets := []
    equality_ids := []
    sort_order_id := none
    first_row_id := none
    partition_spec_id := 0
    referenced_data_file := none
    content_offset := none
    content_size_in_bytes := none }

/-- Test fixture: a manifest list with one data manifest holding `a.parquet`
and `b.parquet`. -/
def c1List : List Manifest :=
  [⟨ManifestContentType.Data,
    [⟨mkDataRecord "a.parquet", some 3⟩, ⟨mkDataRecord "b.parquet", some 4⟩]⟩]

/-- Witness for the amended C1: the end-to-end scenario — remove `a.parquet`,
add one deletion vector for `b.parquet` — satisfies the invariant on its
output. -/
theorem C1_rewrite_invariant_witness :
    (append_puffin_metadata_and_rewrite noFaults ["a.parquet"]
      [("dv1.puffin", [mkDVBlob "b.parquet" "10" 5])] [] ⟨some c1List, []⟩).1 =
        .ok () ∧
    countDVRefs ((append_puffin_metadata_and_rewrite noFaults ["a.parquet"]
      [("dv1.puffin", [mkDVBlob "b.parquet" "10" 5])] []
      ⟨some c1List, []⟩).2.snapshot.getD []) "b.parquet" ≤ 1 :=
  ⟨by decide,
   ((C1_rewrite_invariant noFaults ["a.parquet"]
      [("dv1.puffin", [mkDVBlob "b.parquet" "10" 5])] [] ⟨some c1List, []⟩
      (append_puffin_metadata_and_rewrite noFaults ["a.parquet"]
        [("dv1.puffin", [mkDVBlob "b.parquet" "10" 5])] [] ⟨some c1List, []⟩).2
      c1List (by decide) rfl (by decide) (by decide) (by decide))
      ((append_puffin_metadata_and_rewrite noFaults ["a.parquet"]
        [("dv1.puffin", [mkDVBlob "b.parquet" "10" 5])] []
        ⟨some c1List, []⟩).2.snapshot.getD []) (by decide)).1 "b.parquet"⟩

/-- Counterexample to claim C3 as stated: a successful rewrite that removes
`a.parquet` while the blobs-to-add map holds a new deletion-vector blob
referencing `a.parquet` emits a manifest list that still contains a
deletion-vector entry referencing the removed file — newly added deletion
vectors are not filtered against the removal set. -/
theorem C3_removal_law_cex :
    (append_puffin_metadata_and_rewrite noFaults ["a.parquet"]
      [("p.puffin", [mkDVBlob "a.parquet" "1" 1])] [] ⟨some [], []⟩).1 = .ok () ∧
    countDVRefs ((append_puffin_metadata_and_rewrite noFaults ["a.parquet"]
      [("p.puffin", [mkDVBlob "a.parquet" "1" 1])] []
      ⟨some [], []⟩).2.snapshot.getD []) "a.parquet" = 1 ∧
    "a.parquet" ∈ ["a.parquet"] :=
  ⟨by decide, by decide, by decide⟩

/-- Claim C3 (amended: requires that no added deletion-vector blob references
a file in the removal set — the additions loop appends new deletion vectors
without consulting the removal set): for every path `P` in the removal set,
the manifest list produced by a successful rewrite contains zero primary-data
(parquet) entries with file path `P` and zero deletion-vector entries whose
referenced data file is `P`. -/
theorem C3_removal_law (faults : Nat → Bool)
    (data_files_to_remove : List String)
    (puffin_blobs_to_add : List (String × List PuffinBlobMetadataProxy))
    (puffin_blobs_to_remove : List String) (store store2 : Store)
    (ml : List Manifest) (P : String)
    (hsnap : store.snapshot = some ml)
    (hnotrem : ∀ r ∈ addedDVRefs puffin_blobs_to_add, r ∉ data_files_to_remove)
    (hok : append_puffin_metadata_and_rewrite faults data_files_to_remove
      puffin_blobs_to_add puffin_blobs_to_remove store = (.ok (), store2))
    (hP : P ∈ data_files_to_remove) :
    ∀ newList, store2.snapshot = some newList →
      (∀ e ∈ allEntries newList,
        e.data_file.file_format = DataFileFormat.Parquet →
          e.data_file.file_path ≠ P) ∧
      (∀ e ∈ deletionVectorRecords newList,
        e.data_file.referenced_data_file ≠ some P) := by
  have hne : ¬(data_files_to_remove.isEmpty ∧ puffin_blobs_to_add.isEmpty ∧
      puffin_blobs_to_remove.isEmpty) := by
    intro hcon
    have hd := hcon.1
    rw [List.isEmpty_iff] at hd
    subst hd
    cases hP
  obtain ⟨st1, st2, dv, hscan, hadds, hdrain, hinv2, hdv1, hsn, hdvrec, hall⟩ :=
    append_ok_output hne hsnap hok
  have hinv1 := scanManifests_inv (scanInv_init data_files_to_remove) hscan
  obtain ⟨_, _, _, hkeys2, _, hrefs2, _⟩ := processAdditions_ok_spec hinv1.1 hadds
  obtain ⟨hdrefs, hdmem, _⟩ := drainDV_ok_spec hdrain
  rw [hdv1] at hrefs2
  rw [show dvRefs ([] : List (DataFile × Int)) = [] from rfl, List.nil_append] at hrefs2
  have hmapkeys := map_ref_eq_map_keys (fun q hq => (hinv2.mapVal q hq).1)
  have hrefs : dvRefs dv = (addedDVRefs puffin_blobs_to_add ++
      st2.existing_deletion_vector_entries.map Prod.fst).map some := by
    rw [hdrefs, hrefs2, hmapkeys, List.map_append]
  have hcarrynil : st2.carryovers = [] := by
    rcases hinv2.carryEmpty with hd | hc
    · rw [hd] at hP
      cases hP
    · exact hc
  intro newList hnew
  rw [hsn] at hnew
  injection hnew with hnew
  subst hnew
  constructor
  · intro e he hfmt
    rw [hall, hcarrynil] at he
    rw [show allEntries ([] : List Manifest) = [] from rfl, List.nil_append] at he
    rcases List.mem_append.mp he with he2 | he2
    · rcases List.mem_append.mp he2 with he3 | he3
      · obtain ⟨q, hq, hqe⟩ := List.mem_map.mp he3
        subst hqe
        intro heq
        exact (hinv2.dataInv q hq).1 (heq ▸ hP)
      · obtain ⟨q, hq, hqe⟩ := List.mem_map.mp he3
        subst hqe
        exact absurd ((hinv2.indexInv q hq).symm.trans hfmt) (by decide)
    · obtain ⟨q, hq, hqe⟩ := List.mem_map.mp he2
      subst hqe
      rcases hdmem q hq with hq2 | ⟨p2, hp2, hq2⟩
      · exact absurd ((hinv2.dvInv q hq2).symm.trans hfmt) (by decide)
      · have hfq : q.1.file_format = DataFileFormat.Puffin := by
          rw [hq2]
          exact (hinv2.mapVal p2 hp2).2
        exact absurd (hfq.symm.trans hfmt) (by decide)
  · intro e he hcon
    rw [hdvrec] at he
    obtain ⟨q, hq, hqe⟩ := List.mem_map.mp he
    subst hqe
    have hmem : some P ∈ dvRefs dv := by
      unfold dvRefs
      exact List.mem_map.mpr ⟨q, hq, hcon⟩
    rw [hrefs] at hmem
    obtain ⟨x, hx, hxp⟩ := List.mem_map.mp hmem
    have hxpe : x = P := Option.some_inj.mp hxp
    subst hxpe
    rcases List.mem_append.mp hx with hx2 | hx2
    · exact hnotrem x hx2 hP
    · exact hinv2.keysNotRemoved x hx2 hP

/-- Witness for the amended C3: removing `a.parquet` while adding a deletion
vector for `b.parquet` leaves no entry mentioning `a.parquet`. -/
theorem C3_removal_law_witness :
    (∀ e ∈ allEntries ((append_puffin_metadata_and_rewrite noFaults ["a.parquet"]
        [("dv1.puffin", [mkDVBlob "b.parquet" "10" 5])] []
        ⟨some c1List, []⟩).2.snapshot.getD []),
      e.data_file.file_format = DataFileFormat.Parquet →
        e.data_file.file_path ≠ "a.parquet") ∧
    (∀ e ∈ deletionVectorRecords ((append_puffin_metadata_and_rewrite noFaults
        ["a.parquet"] [("dv1.puffin", [mkDVBlob "b.parquet" "10" 5])] []
        ⟨some c1List, []⟩).2.snapshot.getD []),
      e.data_file.referenced_data_file ≠ some "a.parquet") :=
  C3_removal_law noFaults ["a.parquet"]
    [("dv1.puffin", [mkDVBlob "b.parquet" "10" 5])] [] ⟨some c1List, []⟩
    (append_puffin_metadata_and_rewrite noFaults ["a.parquet"]
      [("dv1.puffin", [mkDVBlob "b.parquet" "10" 5])] [] ⟨some c1List, []⟩).2
    c1List "a.parquet" rfl (by decide) (by decide) (by decide)
    ((append_puffin_metadata_and_rewrite noFaults ["a.parquet"]
      [("dv1.puffin", [mkDVBlob "b.parquet" "10" 5])] []
      ⟨some c1List, []⟩).2.snapshot.getD []) (by decide)

/-- Test fixture: a manifest list with one deletes manifest holding a single
deletion-vector entry for `b.parquet`. -/
def c2List : List Manifest :=
  [⟨ManifestContentType.Deletes, [⟨mkDVRecord "old.puffin" "b.parquet", some 1⟩]⟩]

/-- Claim C2 (confirmed): when the existing manifests hold exactly one
deletion-vector entry referencing `D` (not in the removal set) and the added
blobs contribute exactly one deletion-vector blob referencing `D`, a successful
rewrite emits exactly the record built from the new blob for `D` — never the
old entry, never both. -/
theorem C2_supersede_law (faults : Nat → Bool)
    (data_files_to_remove : List String)
    (puffin_blobs_to_add : List (String × List PuffinBlobMetadataProxy))
    (puffin_blobs_to_remove : List String) (store store2 : Store)
    (ml : List Manifest) (D p : String) (b : PuffinBlobMetadataProxy)
    (hsnap : store.snapshot = some ml)
    (_hD : D ∉ data_files_to_remove)
    (_hexist : countDVRefs ml D = 1)
    (hocc : dvOccurrencesFor puffin_blobs_to_add D = [(p, b)])
    (hok : append_puffin_metadata_and_rewrite faults data_files_to_remove
      puffin_blobs_to_add puffin_blobs_to_remove store = (.ok (), store2)) :
    ∀ newList, store2.snapshot = some newList →
      (deletionVectorRecords newList).filter
        (fun e => decide (e.data_file.referenced_data_file = some D)) =
        [⟨dvRecordOf p b, some b.sequence_number⟩] := by
  have hne : ¬(data_files_to_remove.isEmpty ∧ puffin_blobs_to_add.isEmpty ∧
      puffin_blobs_to_remove.isEmpty) := by
    intro hcon
    have hp := hcon.2.1
    rw [List.isEmpty_iff] at hp
    rw [hp] at hocc
    cases hocc
  obtain ⟨st1, st2, dv, hscan, hadds, hdrain, hinv2, hdv1, hsn, hdvrec, _⟩ :=
    append_ok_output hne hsnap hok
  have hinv1 := scanManifests_inv (scanInv_init data_files_to_remove) hscan
  obtain ⟨_, _, _, hkeys2, _, _, hfil2⟩ := processAdditions_ok_spec hinv1.1 hadds
  obtain ⟨_, _, hdfil⟩ := drainDV_ok_spec hdrain
  have hDadded : D ∈ addedDVRefs puffin_blobs_to_add :=
    addedDVRefs_of_occ (by rw [hocc]; exact List.mem_singleton.mpr rfl)
  have hnoD : ∀ q ∈ st2.existing_deletion_vector_entries,
      q.2.data_file.referenced_data_file ≠ some D := by
    intro q hq hcon
    rw [(hinv2.mapVal q hq).1] at hcon
    have hqD : q.1 = D := Option.some_inj.mp hcon
    have hk : q.1 ∈ st2.existing_deletion_vector_entries.map Prod.fst :=
      List.mem_map.mpr ⟨q, hq, rfl⟩
    rw [hqD] at hk
    exact (hkeys2 D hk).2 hDadded
  have hfil0 : dvFilterD D st1.deletionVectorEntries = [] := by
    rw [hdv1]
    rfl
  have hfilfinal : dvFilterD D dv = [(dvRecordOf p b, b.sequence_number)] := by
    rw [hdfil D hnoD, hfil2 D, hfil0, List.nil_append, hocc]
    rfl
  intro newList hnew
  rw [hsn] at hnew
  injection hnew with hnew
  subst hnew
  rw [hdvrec, List.filter_map]
  rw [show List.filter
      ((fun e => decide (e.data_file.referenced_data_file = some D)) ∘ mkEntry) dv =
      dvFilterD D dv from rfl]
  rw [hfilfinal]
  rfl

/-- Witness for C2: an existing deletion vector for `b.parquet` in `old.puffin`
superseded by a new blob in `new.puffin`; the output holds exactly the new
record. -/
theorem C2_supersede_law_witness :
    (deletionVectorRecords ((append_puffin_metadata_and_rewrite noFaults []
      [("new.puffin", [mkDVBlob "b.parquet" "7" 5])] []
      ⟨some c2List, []⟩).2.snapshot.getD [])).filter
      (fun e => decide (e.data_file.referenced_data_file = some "b.parquet")) =
      [⟨dvRecordOf "new.puffin" (mkDVBlob "b.parquet" "7" 5),
        some (mkDVBlob "b.parquet" "7" 5).sequence_number⟩] :=
  C2_supersede_law noFaults [] [("new.puffin", [mkDVBlob "b.parquet" "7" 5])] []
    ⟨some c2List, []⟩
    (append_puffin_metadata_and_rewrite noFaults []
      [("new.puffin", [mkDVBlob "b.parquet" "7" 5])] [] ⟨some c2List, []⟩).2
    c2List "b.parquet" "new.puffin" (mkDVBlob "b.parquet" "7" 5)
    rfl (by decide) (by decide) (by decide) (by decide)
    ((append_puffin_metadata_and_rewrite noFaults []
      [("new.puffin", [mkDVBlob "b.parquet" "7" 5])] []
      ⟨some c2List, []⟩).2.snapshot.getD []) (by decide)

end Moonlink

